import Mathlib

/-!
# go-fcm: message validation, client construction and dispatch

A shallow embedding of the Go package `fcm` (`message.go`, `option.go`,
`client.go`, `user.go`) and the properties proved about it.

Conventions of the embedding:

* a Go `string` is a Lean `String`, that is, text in valid UTF-8; the program only
  compares strings with `""`, searches them for the ASCII patterns `&&` and `||`
  (whose bytes never occur inside a multi-byte character), and hands them to the JSON
  encoder;
* a Go slice is a `List` (a nil slice and an empty slice are both `[]`: the program
  only takes `len` of a slice, ranges over it or encodes it under `omitempty`);
* a Go map is an association list;
* a pointer that may be nil is an `Option`;
* a Go `error` result is an `Option Error` (`none` is the nil error), and a
  `(value, error)` result pair is an `Except Error value`;
* `uint` and `time.Duration` values are `Nat` and `Int`: the program only compares
  them with constants, so no wrap-around can occur.
-/

namespace fcm

/-! ## Errors -/

/-- The error values the package can return. The first six are the package-level
`errors.New` variables of `message.go` and `client.go`; the others are the errors built
at their point of use (`option.go`, `client.go`) or handed up from the HTTP and JSON
libraries. -/
inductive Error where
  /-- `ErrInvalidMessage`: "message is invalid". -/
  | ErrInvalidMessage
  /-- `ErrInvalidTarget`: "topic is invalid or registration ids are not set". -/
  | ErrInvalidTarget
  /-- `ErrToManyRegIDs`: "too many registrations ids". -/
  | ErrToManyRegIDs
  /-- `ErrInvalidTimeToLive`: "messages time-to-live is invalid". -/
  | ErrInvalidTimeToLive
  /-- `ErrInvalidAPIKey`: "client API Key is invalid". -/
  | ErrInvalidAPIKey
  /-- `ErrInvalidServerKey`: "client Server Key is invalid". -/
  | ErrInvalidServerKey
  /-- `errors.New("invalid timeout duration")` of `WithTimeout`. -/
  | invalidTimeout
  /-- `errors.New(resp.Status)`: a response whose status code is not 200. -/
  | status (text : String)
  /-- An error of `http.NewRequest` or `http.Client.Do`. -/
  | transport (text : String)
  /-- An error of the JSON encoder or decoder. -/
  | json (text : String)
  /-- An error value made by the caller (a user-written option may return any error). -/
  | other (text : String)
  deriving DecidableEq, Repr

/-! ## `strings.Count` -/

/-- The scan behind `strings.Count` for a non-empty pattern `sub`: the number of
non-overlapping instances of `sub` in the text, found from left to right. The first
argument is the number of characters still covered by the instance found last; they
cannot start another instance. -/
def countScan (sub : List Char) : Nat → List Char → Nat
  | _, [] => 0
  | k + 1, _ :: t => countScan sub k t
  | 0, c :: t =>
    if sub.isPrefixOf (c :: t) then 1 + countScan sub (sub.length - 1) t
    else countScan sub 0 t

/-- Go's `strings.Count(s, substr)`: the number of non-overlapping instances of `substr`
in `s`; for an empty `substr`, one more than the number of characters of `s`. -/
def Count (s substr : String) : Nat :=
  if substr.data = [] then s.data.length + 1 else countScan substr.data 0 s.data

/-! ## A reader of JSON text

The encoder is judged by reading its output back. The reader below is written from the
grammar of JSON (RFC 8259) for compact text, that is, text without insignificant white
space, which is what `json.Marshal` writes. It knows nothing of the encoder. -/

/-- The value of a hexadecimal digit. -/
def hexValue (c : Char) : Option Nat :=
  let n := c.toNat
  if 48 ≤ n ∧ n ≤ 57 then some (n - 48)
  else if 97 ≤ n ∧ n ≤ 102 then some (n - 87)
  else if 65 ≤ n ∧ n ≤ 70 then some (n - 55)
  else none

/-- The character that a letter after a backslash stands for in a JSON string: the
quote, the backslash and the slash stand for themselves, `b`, `f`, `n`, `r`, `t` for
the control characters 8, 12, 10, 13, 9. -/
def escapeLetter (e : Char) : Option Char :=
  let n := e.toNat
  if n = 34 ∨ n = 92 ∨ n = 47 then some e
  else if n = 98 then some (Char.ofNat 8)
  else if n = 102 then some (Char.ofNat 12)
  else if n = 110 then some (Char.ofNat 10)
  else if n = 114 then some (Char.ofNat 13)
  else if n = 116 then some (Char.ofNat 9)
  else none

/-- Reads a JSON string after its opening quote, up to the closing quote: the
characters it stands for (the second argument holds those read so far, last first) and
the text after the closing quote. A backslash starts an escape, `\uXXXX` names a
character by four hexadecimal digits, and a raw control character is not allowed. -/
def readStringBody : List Char → List Char → Option (List Char × List Char)
  | [], _ => none
  | c :: t, acc =>
    if c.toNat = 34 then some (acc.reverse, t)
    else if c.toNat = 92 then
      match t with
      | [] => none
      | e :: t1 =>
        if e.toNat = 117 then
          match t1 with
          | a :: b :: c1 :: d :: t2 =>
            match hexValue a, hexValue b, hexValue c1, hexValue d with
            | some x, some y, some z, some w =>
              if Nat.isValidChar (((x * 16 + y) * 16 + z) * 16 + w) then
                readStringBody t2 (Char.ofNat (((x * 16 + y) * 16 + z) * 16 + w) :: acc)
              else none
            | _, _, _, _ => none
          | _ => none
        else
          match escapeLetter e with
          | some x => readStringBody t1 (x :: acc)
          | none => none
    else if c.toNat < 32 then none
    else readStringBody t (c :: acc)

/-- Reads a text that is one JSON string, quotes included: the string it stands for. -/
def readString (text : String) : Option String :=
  match text.data with
  | [] => none
  | c :: t =>
    if c.toNat = 34 then
      match readStringBody t [] with
      | some (s, []) => some (String.mk s)
      | _ => none
    else none

/-- Where a reader stands inside a JSON value: outside any string at some depth of
brackets and braces, inside a string, or right after a backslash inside a string. -/
inductive Mode where
  | plain (depth : Nat)
  | text (depth : Nat)
  | escaped (depth : Nat)
  deriving DecidableEq, Repr

/-- One character further inside a value. There is no next mode when the character ends
the value: a comma, a closing brace or a closing bracket outside any string at depth 0. -/
def Mode.next : Mode → Char → Option Mode
  | .plain d, c =>
    if c.toNat = 34 then some (.text d)
    else if c.toNat = 123 ∨ c.toNat = 91 then some (.plain (d + 1))
    else if c.toNat = 125 ∨ c.toNat = 93 then (if d = 0 then none else some (.plain (d - 1)))
    else if c.toNat = 44 ∧ d = 0 then none
    else some (.plain d)
  | .text d, c =>
    if c.toNat = 92 then some (.escaped d)
    else if c.toNat = 34 then some (.plain d)
    else some (.text d)
  | .escaped d, _ => some (.text d)

/-- The mode after a run of characters, none of which ends the value. -/
def Mode.run : Mode → List Char → Option Mode
  | m, [] => some m
  | m, c :: t =>
    match m.next c with
    | some m1 => Mode.run m1 t
    | none => none

/-- A text is well nested when, read at any depth, it closes every string, bracket and
brace it opens and never closes one it did not open. Every JSON value is such a text. -/
def WellNested (v : String) : Prop :=
  ∀ d : Nat, Mode.run (.plain d) v.data = some (.plain d)

/-- Cuts the text after an opening bracket or brace into the items between the commas at
depth 0, up to the closing character with code `close`, which must end the text. The
arguments hold the mode, the item being read (last character first) and the items read
so far (last item first). -/
def splitItems (close : Nat) : Mode → List Char → List (List Char) → List Char →
    Option (List (List Char))
  | _, _, _, [] => none
  | m, cur, done, c :: t =>
    match m.next c with
    | some m1 => splitItems close m1 (c :: cur) done t
    | none =>
      if c.toNat = 44 then splitItems close (.plain 0) [] (cur.reverse :: done) t
      else if c.toNat = close ∧ t = [] then some ((cur.reverse :: done).reverse)
      else none

/-- The items of an array (`opening` 91, `close` 93) or an object (123, 125); a pair of
brackets with nothing between them has no items. -/
def readItems (opening close : Nat) (text : List Char) : Option (List (List Char)) :=
  match text with
  | [] => none
  | c :: t =>
    if c.toNat = opening then
      match splitItems close (.plain 0) [] [] t with
      | some [[]] => some []
      | r => r
    else none

/-- Reads a member of an object: a string, a colon and the text of a value. -/
def readMember (item : List Char) : Option (String × String) :=
  match item with
  | [] => none
  | c :: t =>
    if c.toNat = 34 then
      match readStringBody t [] with
      | some (k, r :: v) => if r.toNat = 58 then some (String.mk k, String.mk v) else none
      | _ => none
    else none

/-- Reads every item of a list; one item that cannot be read spoils the list. -/
def readEach {α : Type} (f : List Char → Option α) : List (List Char) → Option (List α)
  | [] => some []
  | item :: rest =>
    match f item, readEach f rest with
    | some a, some as => some (a :: as)
    | _, _ => none

/-- Reads a JSON object: its members in the order of the text, each a key with the text
of its value. -/
def readObject (text : String) : Option (List (String × String)) :=
  match readItems 123 125 text.data with
  | some items => readEach readMember items
  | none => none

/-- Reads a JSON array of strings. -/
def readStrings (text : String) : Option (List String) :=
  match readItems 91 93 text.data with
  | some items => readEach (fun item => readString (String.mk item)) items
  | none => none

/-! ## `message.go` -/

/-- The struct `Notification`. -/
structure Notification where
  Title : String := ""
  Body : String := ""
  Sound : String := ""
  ClickAction : String := ""
  BodyLocKey : String := ""
  BodyLocArgs : List String := []
  TitleLocKey : String := ""
  TitleLocArgs : List String := []
  Subtitle : String := ""
  Badge : String := ""
  AndroidChannelId : String := ""
  Icon : String := ""
  Tag : String := ""
  Color : String := ""
  deriving DecidableEq, Repr

/-- A value stored in an `interface{}` slot (the values of the `Apns` and `Webpush`
maps). The program never inspects such a value; it only passes it to `json.Marshal`.
The value is therefore represented by what the encoder makes of it: the error for a
value that JSON cannot express, or its JSON text, of which only this is known: it is
well nested, like every JSON value. -/
structure Iface where
  encoded : Except Error String
  wellNested : ∀ s : String, encoded = .ok s → WellNested s

/-- The struct `Message`; the field defaults are Go's zero values. -/
structure Message where
  To : String := ""
  RegistrationIds : List String := []
  Condition : String := ""
  CollapseKey : String := ""
  Priority : String := ""
  ContentAvailable : Bool := false
  MutableContent : Bool := false
  DelayWhileIdle : Bool := false
  TimeToLive : Option Nat := none
  RestrictedPackageName : String := ""
  DryRun : Bool := false
  Data : List (String × String) := []
  Notification : Option Notification := none
  Apns : List (String × Iface) := []
  Webpush : List (String × Iface) := []

/-- The local `opCnt` of `Validate`:
`strings.Count(msg.Condition, "&&") + strings.Count(msg.Condition, "||")`. -/
def opCnt (msg : Message) : Nat :=
  Count msg.Condition "&&" + Count msg.Condition "||"

/-- `(*Message).Validate`; the receiver may be a nil pointer. -/
def Validate : Option Message → Option Error
  | none => some Error.ErrInvalidMessage
  | some msg =>
    if msg.To = "" ∧ (msg.Condition = "" ∨ opCnt msg > 5) ∧ msg.RegistrationIds.length = 0 then
      some Error.ErrInvalidTarget
    else if msg.RegistrationIds.length > 1000 then
      some Error.ErrToManyRegIDs
    else
      match msg.TimeToLive with
      | some ttl => if ttl > 2419200 then some Error.ErrInvalidTimeToLive else none
      | none => none

/-! ## `encoding/json` as the package uses it

Every struct field of the package carries a `json:"name,omitempty"` tag, so a field is
written under the key `name` unless its value is empty: `false`, a nil pointer, or a
string, slice or map of length zero. Fields are written in declaration order and map
keys in sorted order. An encoded object is kept as the list of its members, each a key
with the JSON text of its value, until it is rendered. -/

/-- The members of an encoded JSON object, in the order they are written. -/
abbrev Fields := List (String × String)

/-- The lower-case hexadecimal digit of a number below 16. -/
def hexDigit (n : Nat) : Char := "0123456789abcdef".data.getD n '0'

/-- What the encoder writes for one character inside a string (HTML escaping is on for
`json.Marshal`): the quote and the backslash are escaped with a backslash, the control
characters with their short form or `\u00XX`, and `<`, `>`, `&`, U+2028 and U+2029 with
`\uXXXX`; every other character is copied. (The short forms `\b` and `\f` are those of
Go 1.22 and later; the claims proved below do not depend on them.) -/
def escapeChar (c : Char) : List Char :=
  let n := c.toNat
  if n = 34 ∨ n = 92 then [Char.ofNat 92, c]
  else if n = 8 then "\\b".data
  else if n = 12 then "\\f".data
  else if n = 10 then "\\n".data
  else if n = 13 then "\\r".data
  else if n = 9 then "\\t".data
  else if n < 32 ∨ n = 60 ∨ n = 62 ∨ n = 38 then
    "\\u00".data ++ [hexDigit (n / 16), hexDigit (n % 16)]
  else if n = 8232 ∨ n = 8233 then "\\u202".data ++ [hexDigit (n % 16)]
  else [c]

/-- The JSON text of a string value. -/
def encodeString (s : String) : String :=
  "\"" ++ String.mk (s.data.flatMap escapeChar) ++ "\""

/-- The JSON text of a non-nil `[]string`. -/
def encodeStrings (xs : List String) : String :=
  "[" ++ ",".intercalate (xs.map encodeString) ++ "]"

/-- The JSON text of an object with the given members. -/
def renderObject (fs : Fields) : String :=
  "\x7b" ++ ",".intercalate (fs.map fun kv => encodeString kv.1 ++ ":" ++ kv.2) ++ "\x7d"

/-- The order in which the encoder compares two map keys: character by character, a
proper initial part of a key before the key. -/
def keyLess : List Char → List Char → Bool
  | [], [] => false
  | [], _ :: _ => true
  | _ :: _, [] => false
  | a :: as, b :: bs =>
    if a.toNat < b.toNat then true
    else if b.toNat < a.toNat then false
    else keyLess as bs

/-- The entries of a map in the order the encoder writes them: sorted by key. -/
def sortedEntries {α : Type} (m : List (String × α)) : List (String × α) :=
  m.insertionSort fun a b => keyLess b.1.data a.1.data = false

/-- The JSON text of a non-nil `map[string]string`. -/
def encodeStringMap (m : List (String × String)) : String :=
  renderObject ((sortedEntries m).map fun kv => (kv.1, encodeString kv.2))

/-- The members for the entries of a `map[string]interface{}`, or the first error the
encoder meets among the values. -/
def encodeIfaceEntries : List (String × Iface) → Except Error Fields
  | [] => .ok []
  | kv :: rest =>
    match kv.2.encoded with
    | .error e => .error e
    | .ok s =>
      match encodeIfaceEntries rest with
      | .error e => .error e
      | .ok fs => .ok ((kv.1, s) :: fs)

/-- A `string` field tagged `omitempty`. -/
def stringField (name v : String) : Fields :=
  if v = "" then [] else [(name, encodeString v)]

/-- A `bool` field tagged `omitempty`. -/
def boolField (name : String) (v : Bool) : Fields :=
  if v then [(name, "true")] else []

/-- A `[]string` field tagged `omitempty`. -/
def stringsField (name : String) (v : List String) : Fields :=
  if v.length = 0 then [] else [(name, encodeStrings v)]

/-- A `*uint` field tagged `omitempty`: left out when nil, written in decimal otherwise
(also when it points to zero). -/
def uintPtrField (name : String) (v : Option Nat) : Fields :=
  match v with
  | none => []
  | some n => [(name, toString n)]

/-- A `map[string]string` field tagged `omitempty`. -/
def stringMapField (name : String) (v : List (String × String)) : Fields :=
  if v.length = 0 then [] else [(name, encodeStringMap v)]

/-- A `map[string]interface{}` field tagged `omitempty`; encoding a value may fail. -/
def ifaceMapField (name : String) (v : List (String × Iface)) : Except Error Fields :=
  if v.length = 0 then .ok []
  else
    match encodeIfaceEntries (sortedEntries v) with
    | .error e => .error e
    | .ok fs => .ok [(name, renderObject fs)]

/-- The members written for a `Notification`, from the tags of the struct. -/
def notificationFields (n : Notification) : Fields :=
  stringField "title" n.Title ++ stringField "body" n.Body ++
  stringField "sound" n.Sound ++ stringField "click_action" n.ClickAction ++
  stringField "body_loc_key" n.BodyLocKey ++ stringsField "body_loc_args" n.BodyLocArgs ++
  stringField "title_loc_key" n.TitleLocKey ++ stringsField "title_loc_args" n.TitleLocArgs ++
  stringField "subtitle" n.Subtitle ++ stringField "badge" n.Badge ++
  stringField "android_channel_id" n.AndroidChannelId ++ stringField "icon" n.Icon ++
  stringField "tag" n.Tag ++ stringField "color" n.Color

/-- A `*Notification` field tagged `omitempty`: left out when nil. -/
def notificationPtrField (name : String) (v : Option Notification) : Fields :=
  match v with
  | none => []
  | some n => [(name, renderObject (notificationFields n))]

/-- The members written for a `Message`, from the tags of the struct, or the error of
the encoder (only a value of `Apns` or `Webpush` can cause one). -/
def messageFields (msg : Message) : Except Error Fields :=
  match ifaceMapField "apns" msg.Apns with
  | .error e => .error e
  | .ok apns =>
    match ifaceMapField "webpush" msg.Webpush with
    | .error e => .error e
    | .ok webpush =>
      .ok (stringField "to" msg.To ++ stringsField "registration_ids" msg.RegistrationIds ++
        stringField "condition" msg.Condition ++ stringField "collapse_key" msg.CollapseKey ++
        stringField "priority" msg.Priority ++
        boolField "content_available" msg.ContentAvailable ++
        boolField "mutable_content" msg.MutableContent ++
        boolField "delay_while_idle" msg.DelayWhileIdle ++
        uintPtrField "time_to_live" msg.TimeToLive ++
        stringField "restricted_package_name" msg.RestrictedPackageName ++
        boolField "dry_run" msg.DryRun ++ stringMapField "data" msg.Data ++
        notificationPtrField "notification" msg.Notification ++ apns ++ webpush)

/-- `json.Marshal(message)` for a `*Message`: a nil pointer encodes as `null`. -/
def Marshal : Option Message → Except Error String
  | none => .ok "null"
  | some msg =>
    match messageFields msg with
    | .error e => .error e
    | .ok fs => .ok (renderObject fs)

/-! ## `user.go` and the response of `message.go` -/

/-- The struct `ProviderInfo`. -/
structure ProviderInfo where
  ProviderId : String := ""
  DisplayName : String := ""
  PhotoUrl : String := ""
  Email : String := ""
  deriving DecidableEq, Repr

/-- The struct `User`. -/
structure User where
  LocalId : String := ""
  PhoneNumber : String := ""
  Email : String := ""
  EmailVerified : Bool := false
  DisplayName : String := ""
  PhotoUrl : String := ""
  ValidSince : String := ""
  Disabled : String := ""
  LastLoginAt : String := ""
  CreatedAt : String := ""
  ProviderUserInfo : List ProviderInfo := []
  deriving DecidableEq, Repr

/-- The struct `LookupUserResponse`. -/
structure LookupUserResponse where
  Kind : String := ""
  Users : List User := []
  deriving DecidableEq, Repr

/-- The struct `MessageResponseResult`. -/
structure MessageResponseResult where
  MessageId : String := ""
  RegistrationId : String := ""
  Error : String := ""
  deriving DecidableEq, Repr

/-- The struct `MessageResponse`, with the two fields of the embedded
`TopicMessageResponse` last. -/
structure MessageResponse where
  MulticastId : Int := 0
  Success : Int := 0
  Failure : Int := 0
  Results : List MessageResponseResult := []
  MessageId : Int := 0
  Error : String := ""
  deriving DecidableEq, Repr

/-! ## `client.go` and `option.go` -/

/-- `DefaultTimeout = 30 * time.Second`, in nanoseconds like every `time.Duration`. -/
def DefaultTimeout : Int := 30 * 1000000000

/-- The constant `API_SEND_MESSAGE`. -/
def API_SEND_MESSAGE : String := "https://fcm.googleapis.com/fcm/send"

/-- `fmt.Sprintf(API_USER_LOOKUP, key)`. -/
def API_USER_LOOKUP (key : String) : String :=
  "https://identitytoolkit.googleapis.com/v1/accounts:lookup?key=" ++ key

/-- The struct `Client`. -/
structure Client where
  ApiKey : String
  ServerKey : String
  timeout : Int
  deriving DecidableEq, Repr

/-- The type `Option` of `option.go`, `func(*Client) error`: a function that may change
the client it is given and returns an error or nil. -/
abbrev ClientOption := Client → Option Error × Client

/-- `WithTimeout(d)`; `d.Nanoseconds()` is the duration itself. -/
def WithTimeout (d : Int) : ClientOption := fun c =>
  if d ≤ 0 then (some Error.invalidTimeout, c)
  else (none, { c with timeout := d })

/-- The loop `for _, o := range opts` of `NewClient`, with the number of options called
so far: the first option that returns an error ends the construction. -/
def applyOptions : List ClientOption → Client → Nat → Except Error Client × Nat
  | [], client, n => (.ok client, n)
  | o :: rest, client, n =>
    match o client with
    | (some err, _) => (.error err, n + 1)
    | (none, client1) => applyOptions rest client1 (n + 1)

/-- `NewClient(apiKey, serverKey, opts...)`: the client or the error, and the number of
options that were called. -/
def NewClient (apiKey serverKey : String) (opts : List ClientOption) :
    Except Error Client × Nat :=
  if apiKey = "" then (.error Error.ErrInvalidAPIKey, 0)
  else if serverKey = "" then (.error Error.ErrInvalidServerKey, 0)
  else applyOptions opts { ApiKey := apiKey, ServerKey := serverKey, timeout := DefaultTimeout } 0

/-- An `http.Request` as the client builds it; `Timeout` is the deadline of its context. -/
structure Request where
  Method : String
  URL : String
  Body : String
  Header : List (String × String)
  Timeout : Int
  deriving DecidableEq, Repr

/-- The parts of an `http.Response` the client reads. -/
structure Response where
  StatusCode : Nat
  Status : String
  Body : String
  deriving DecidableEq, Repr

/-- The libraries behind the client: `net/http` and the JSON decoder. -/
structure Http where
  /-- The error `http.NewRequest` reports for a method and a URL, if any. -/
  NewRequestErr : String → String → Option Error
  /-- `(&http.Client{}).Do(req)`: the response or the transport error. -/
  Do : Request → Except Error Response
  /-- `json.NewDecoder(body).Decode(&result)` for a `MessageResponse`. -/
  DecodeMessageResponse : String → Except Error MessageResponse
  /-- `json.NewDecoder(body).Decode(&result)` for a `LookupUserResponse`: the error or
  nil, and what `result` holds afterwards. -/
  DecodeLookupUser : String → Option Error × LookupUserResponse

/-- `(*Client).requestWithContext`: the outcome and the requests handed to the
transport. -/
def requestWithContext (h : Http) (c : Client) (ctx : Int) (method endpoint body : String) :
    Except Error Response × List Request :=
  match h.NewRequestErr method endpoint with
  | some err => (.error err, [])
  | none =>
    let req : Request :=
      { Method := method, URL := endpoint, Body := body, Timeout := ctx,
        Header := [("Authorization", "key=" ++ c.ServerKey),
                   ("Content-Type", "application/json")] }
    (h.Do req, [req])

/-- `(*Client).request`: the context carries the client's timeout. -/
def request (h : Http) (c : Client) (method endpoint body : String) :
    Except Error Response × List Request :=
  requestWithContext h c c.timeout method endpoint body

/-- `(*Client).Send`: the result and the requests handed to the transport. -/
def Send (h : Http) (c : Client) (message : Option Message) :
    Except Error MessageResponse × List Request :=
  match Validate message with
  | some err => (.error err, [])
  | none =>
    match Marshal message with
    | .error err => (.error err, [])
    | .ok body =>
      match request h c "POST" API_SEND_MESSAGE body with
      | (.error err, sent) => (.error err, sent)
      | (.ok resp, sent) =>
        if resp.StatusCode ≠ 200 then (.error (Error.status resp.Status), sent)
        else
          match h.DecodeMessageResponse resp.Body with
          | .error err => (.error err, sent)
          | .ok result => (.ok result, sent)

/-- How a call that may fault ends: with a value, with an error, or with a run-time
panic. -/
inductive Outcome (α : Type) where
  | value (a : α)
  | error (e : Error)
  | fault (text : String)
  deriving DecidableEq, Repr

/-- The expression `result.Users[0]`: an index out of range is a run-time panic. -/
def firstUser (users : List User) : Outcome User :=
  match users with
  | u :: _ => .value u
  | [] => .fault "index out of range [0] with length 0"

/-- `(*Client).GetUser`: the outcome and the requests handed to the transport. -/
def GetUser (h : Http) (c : Client) (token : String) : Outcome User × List Request :=
  let endpoint := API_USER_LOOKUP c.ApiKey
  let body := encodeStringMap [("idToken", token)]
  match request h c "POST" endpoint body with
  | (.error err, sent) => (.error err, sent)
  | (.ok resp, sent) =>
    if resp.StatusCode ≠ 200 then (.error (Error.status resp.Status), sent)
    else
      match h.DecodeLookupUser resp.Body with
      | (some err, result) =>
        if result.Users.length = 0 then (.error err, sent)
        else (firstUser result.Users, sent)
      | (none, result) => (firstUser result.Users, sent)

/-! ## Messages used as concrete inputs -/

/-- A selection of instances of `sub` in `s` that do not overlap, written in the words
of the documentation of `strings.Count`: the offsets `ps` are listed from left to right,
the first is at least `k`, `sub` occurs in `s` at each of them, and each next one starts
where the instance before it has ended or later. -/
def nonOverlapping (sub s : List Char) : Nat → List Nat → Bool
  | _, [] => true
  | k, p :: ps =>
    decide (k ≤ p) && sub.isPrefixOf (s.drop p) && nonOverlapping sub s (p + sub.length) ps

/-- The number of target forms a message specifies: a non-empty `To`, a non-empty
`RegistrationIds`, a non-empty `Condition`. -/
def targetForms (msg : Message) : Nat :=
  (if msg.To = "" then 0 else 1) + (if msg.RegistrationIds = [] then 0 else 1) +
    (if msg.Condition = "" then 0 else 1)

/-- A message with a direct token and a condition of six operators. -/
def twoTargets : Message :=
  { To := "t", Condition := "a && b && c && d || e || f || g" }

/-- A message with no target and a time-to-live of 2,419,201. -/
def longLivedNoTarget : Message := { TimeToLive := some 2419201 }

/-- A message with 1001 registration ids and a time-to-live of 2,419,201. -/
def longLivedCrowd : Message :=
  { RegistrationIds := List.replicate 1001 "r", TimeToLive := some 2419201 }

/-- A message with 1000 registration ids and a time-to-live of 2,419,200. -/
def atTheLimits : Message :=
  { RegistrationIds := List.replicate 1000 "r", TimeToLive := some 2419200 }

/-- The wire names of the fields of `Message` in the order of the specification, each
with the test whether that field of the message is non-empty: a non-empty string, a true
flag, a non-empty list or mapping, a present notification, a present time-to-live. -/
def wireNames (msg : Message) : List (String × Bool) :=
  [("to", msg.To != ""),
   ("registration_ids", !msg.RegistrationIds.isEmpty),
   ("condition", msg.Condition != ""),
   ("collapse_key", msg.CollapseKey != ""),
   ("priority", msg.Priority != ""),
   ("content_available", msg.ContentAvailable),
   ("mutable_content", msg.MutableContent),
   ("delay_while_idle", msg.DelayWhileIdle),
   ("time_to_live", msg.TimeToLive.isSome),
   ("restricted_package_name", msg.RestrictedPackageName != ""),
   ("dry_run", msg.DryRun),
   ("data", !msg.Data.isEmpty),
   ("notification", msg.Notification.isSome),
   ("apns", !msg.Apns.isEmpty),
   ("webpush", !msg.Webpush.isEmpty)]

/-- The message of the scenario: `to="T"`, `dryRun=true` and a notification with title
`A` and body `B`. -/
def dryRunToT : Message :=
  { To := "T", DryRun := true, Notification := some { Title := "A", Body := "B" } }

/-- A user-written option that clears the API key of the client and reports no error. -/
def clearApiKey : ClientOption := fun c => (none, { c with ApiKey := "" })

/-- A server that answers every request with `200 OK` and an empty JSON object as body,
with a decoder that reads this body as an object without members: no error, and a
result left at its zero value. -/
def emptyObjectServer : Http where
  NewRequestErr := fun _ _ => none
  Do := fun _ => .ok { StatusCode := 200, Status := "200 OK", Body := "\x7b\x7d" }
  DecodeMessageResponse := fun body =>
    if body = "\x7b\x7d" then .ok {} else .error (Error.json "unexpected body")
  DecodeLookupUser := fun body =>
    if body = "\x7b\x7d" then (none, {}) else (some (Error.json "unexpected body"), {})

/-- A client as `NewClient("k", "s")` returns it. -/
def plainClient : Client := { ApiKey := "k", ServerKey := "s", timeout := DefaultTimeout }

end fcm

namespace fcm

/-! ## `strings.Count` counts non-overlapping instances -/

/-- A selection that starts at `k` or later also starts at any earlier bound or later. -/
theorem nonOverlapping_mono (sub s : List Char) (k1 k2 : Nat) (hk : k2 ≤ k1) (ps : List Nat)
    (h : nonOverlapping sub s k1 ps = true) : nonOverlapping sub s k2 ps = true := by
  cases ps with
  | nil => rfl
  | cons p rest =>
    simp only [nonOverlapping, Bool.and_eq_true, decide_eq_true_eq] at h ⊢
    exact ⟨⟨by omega, h.1.2⟩, h.2⟩

/-- A selection in `c :: t` that skips the first character is a selection in `t` with
every offset one lower. -/
theorem nonOverlapping_tail (sub : List Char) (c : Char) (t : List Char) (ps : List Nat) :
    ∀ k : Nat, nonOverlapping sub (c :: t) (k + 1) ps = true →
      nonOverlapping sub t k (ps.map fun p => p - 1) = true := by
  induction ps with
  | nil =>
    intro k _
    rfl
  | cons p rest ih =>
    intro k h
    simp only [nonOverlapping, Bool.and_eq_true, decide_eq_true_eq, List.map_cons] at h ⊢
    obtain ⟨⟨hk, hp⟩, hrest⟩ := h
    obtain ⟨q, rfl⟩ : ∃ q, p = q + 1 := ⟨p - 1, by omega⟩
    rw [List.drop_succ_cons] at hp
    refine ⟨⟨by omega, by simpa using hp⟩, ?_⟩
    have hrest1 : nonOverlapping sub (c :: t) (q + sub.length + 1) rest = true := by
      rw [show q + sub.length + 1 = q + 1 + sub.length from by omega]
      exact hrest
    simpa using ih (q + sub.length) hrest1

/-- A selection in `t` is a selection in `c :: t` with every offset one higher. -/
theorem nonOverlapping_cons (sub : List Char) (c : Char) (t : List Char) (qs : List Nat) :
    ∀ k : Nat, nonOverlapping sub t k qs = true →
      nonOverlapping sub (c :: t) (k + 1) (qs.map fun q => q + 1) = true := by
  induction qs with
  | nil =>
    intro k _
    rfl
  | cons q rest ih =>
    intro k h
    simp only [nonOverlapping, Bool.and_eq_true, decide_eq_true_eq, List.map_cons] at h ⊢
    obtain ⟨⟨hk, hq⟩, hrest⟩ := h
    rw [List.drop_succ_cons]
    refine ⟨⟨by omega, hq⟩, ?_⟩
    rw [show q + 1 + sub.length = q + sub.length + 1 from by omega]
    exact ih (q + sub.length) hrest

/-- The scan of `strings.Count` finds a largest selection of non-overlapping instances:
no selection that starts at `k` or later has more members than the scan counts, and one
has exactly that many. -/
theorem countScan_greatest (sub : List Char) (hsub : sub ≠ []) (s : List Char) :
    ∀ k : Nat,
      (∀ ps, nonOverlapping sub s k ps = true → ps.length ≤ countScan sub k s) ∧
      (∃ ps, nonOverlapping sub s k ps = true ∧ ps.length = countScan sub k s) := by
  have hlen : 1 ≤ sub.length := by
    cases sub with
    | nil => exact absurd rfl hsub
    | cons a l => simp
  induction s with
  | nil =>
    intro k
    refine ⟨?_, [], rfl, by simp [countScan]⟩
    intro ps h
    cases ps with
    | nil => simp
    | cons p rest =>
      simp only [nonOverlapping, Bool.and_eq_true, decide_eq_true_eq, List.drop_nil] at h
      have hp := h.1.2
      cases sub with
      | nil => exact absurd rfl hsub
      | cons a l => simp [List.isPrefixOf] at hp
  | cons c t ih =>
    intro k
    cases k with
    | succ k =>
      simp only [countScan]
      obtain ⟨hup, qs, hqs, hqlen⟩ := ih k
      refine ⟨?_, qs.map (fun q => q + 1), nonOverlapping_cons sub c t qs k hqs, by simpa using hqlen⟩
      intro ps h
      have := hup _ (nonOverlapping_tail sub c t ps k h)
      simpa using this
    | zero =>
      by_cases hpre : sub.isPrefixOf (c :: t) = true
      · simp only [countScan, if_pos hpre]
        obtain ⟨hup, qs, hqs, hqlen⟩ := ih (sub.length - 1)
        constructor
        · intro ps h
          cases ps with
          | nil => simp
          | cons p rest =>
            simp only [nonOverlapping, Bool.and_eq_true, decide_eq_true_eq] at h
            have hrest : nonOverlapping sub (c :: t) (sub.length - 1 + 1) rest = true :=
              nonOverlapping_mono sub (c :: t) (p + sub.length) _ (by omega) rest h.2
            have := hup _ (nonOverlapping_tail sub c t rest _ hrest)
            simp only [List.length_map] at this
            simp only [List.length_cons]
            omega
        · refine ⟨0 :: qs.map (fun q => q + 1), ?_, by simp [hqlen]; omega⟩
          simp only [nonOverlapping, Bool.and_eq_true, decide_eq_true_eq, List.drop_zero]
          refine ⟨⟨le_refl _, hpre⟩, ?_⟩
          have := nonOverlapping_cons sub c t qs _ hqs
          rw [show sub.length - 1 + 1 = 0 + sub.length from by omega] at this
          exact this
      · simp only [countScan, if_neg hpre]
        obtain ⟨hup, qs, hqs, hqlen⟩ := ih 0
        constructor
        · intro ps h
          have h1 : nonOverlapping sub (c :: t) (0 + 1) ps = true := by
            cases ps with
            | nil => rfl
            | cons p rest =>
              simp only [nonOverlapping, Bool.and_eq_true, decide_eq_true_eq] at h ⊢
              refine ⟨⟨?_, h.1.2⟩, h.2⟩
              by_contra hp0
              have hp : p = 0 := by omega
              rw [hp, List.drop_zero] at h
              exact hpre h.1.2
          have := hup _ (nonOverlapping_tail sub c t ps 0 h1)
          simpa using this
        · exact ⟨qs.map (fun q => q + 1),
            nonOverlapping_mono sub (c :: t) (0 + 1) 0 (by omega) _
              (nonOverlapping_cons sub c t qs 0 hqs), by simpa using hqlen⟩

/-- For a non-empty pattern `Count` is the greatest number of non-overlapping instances
of the pattern in the text. -/
theorem Count_greatest (s substr : String) (hsub : substr.data ≠ []) :
    (∀ ps, nonOverlapping substr.data s.data 0 ps = true → ps.length ≤ Count s substr) ∧
    (∃ ps, nonOverlapping substr.data s.data 0 ps = true ∧ ps.length = Count s substr) := by
  unfold Count
  rw [if_neg hsub]
  exact countScan_greatest substr.data hsub s.data 0

/-! ## Validation -/

/-- The target test of `Validate` with the conjuncts in the order of the specification. -/
theorem target_test_iff (msg : Message) :
    (msg.To = "" ∧ (msg.Condition = "" ∨ opCnt msg > 5) ∧ msg.RegistrationIds.length = 0) ↔
      (msg.To = "" ∧ msg.RegistrationIds = [] ∧ (msg.Condition = "" ∨ opCnt msg > 5)) := by
  rw [List.length_eq_zero]
  tauto

/-- A message that fails the target test is rejected with `ErrInvalidTarget`. -/
theorem Validate_of_no_target (msg : Message)
    (h : msg.To = "" ∧ msg.RegistrationIds = [] ∧ (msg.Condition = "" ∨ opCnt msg > 5)) :
    Validate (some msg) = some Error.ErrInvalidTarget := by
  have h1 := (target_test_iff msg).mpr h
  simp only [Validate, if_pos h1]

/-- A message that passes the target test and has more than 1000 registration ids is
rejected with `ErrToManyRegIDs`. -/
theorem Validate_of_too_many (msg : Message)
    (h : ¬ (msg.To = "" ∧ msg.RegistrationIds = [] ∧ (msg.Condition = "" ∨ opCnt msg > 5)))
    (hlen : msg.RegistrationIds.length > 1000) :
    Validate (some msg) = some Error.ErrToManyRegIDs := by
  have h1 := (not_congr (target_test_iff msg)).mpr h
  simp only [Validate, if_neg h1, if_pos hlen]

/-- A message that passes the target test and the test on the number of registration
ids is judged by its time-to-live alone. -/
theorem Validate_of_few (msg : Message)
    (h : ¬ (msg.To = "" ∧ msg.RegistrationIds = [] ∧ (msg.Condition = "" ∨ opCnt msg > 5)))
    (hlen : msg.RegistrationIds.length ≤ 1000) :
    Validate (some msg) =
      match msg.TimeToLive with
      | some ttl => if ttl > 2419200 then some Error.ErrInvalidTimeToLive else none
      | none => none := by
  have h1 := (not_congr (target_test_iff msg)).mpr h
  have h2 : ¬ msg.RegistrationIds.length > 1000 := by omega
  simp only [Validate, if_neg h1, if_neg h2]

/-- A non-nil message is accepted exactly when it passes the three tests. -/
theorem Validate_some_eq_none_iff (msg : Message) :
    Validate (some msg) = none ↔
      ¬ (msg.To = "" ∧ msg.RegistrationIds = [] ∧ (msg.Condition = "" ∨ opCnt msg > 5)) ∧
      msg.RegistrationIds.length ≤ 1000 ∧
      (msg.TimeToLive = none ∨ ∃ ttl, msg.TimeToLive = some ttl ∧ ttl ≤ 2419200) := by
  by_cases hP : msg.To = "" ∧ msg.RegistrationIds = [] ∧ (msg.Condition = "" ∨ opCnt msg > 5)
  · simp [Validate_of_no_target msg hP, hP]
  · by_cases h2 : msg.RegistrationIds.length > 1000
    · rw [Validate_of_too_many msg hP h2]
      constructor
      · intro h
        cases h
      · intro h
        omega
    · rw [Validate_of_few msg hP (by omega)]
      cases httl : msg.TimeToLive with
      | none =>
        simp only [true_or, and_true, true_iff]
        exact ⟨hP, by omega⟩
      | some ttl =>
        by_cases h3 : ttl > 2419200
        · simp only [if_pos h3]
          constructor
          · intro h
            cases h
          · rintro ⟨_, _, h | ⟨t, ht, hle⟩⟩
            · cases h
            · cases ht
              omega
        · simp only [if_neg h3, true_iff]
          exact ⟨hP, by omega, Or.inr ⟨ttl, rfl, by omega⟩⟩

/-- The message `longLivedCrowd` has 1001 registration ids. -/
theorem longLivedCrowd_length : longLivedCrowd.RegistrationIds.length = 1001 :=
  List.length_replicate _ _

/-- The message `longLivedCrowd` passes the target test. -/
theorem longLivedCrowd_target :
    ¬ (longLivedCrowd.To = "" ∧ longLivedCrowd.RegistrationIds = [] ∧
      (longLivedCrowd.Condition = "" ∨ opCnt longLivedCrowd > 5)) := by
  intro hP
  have h := longLivedCrowd_length
  rw [hP.2.1] at h
  cases h

/-- C1. `Validate` returns no error exactly when the message is non-nil, it is not the
case that `To` and `RegistrationIds` are empty and `Condition` is empty or has more than
5 operators, `RegistrationIds` has at most 1000 entries, and `TimeToLive` is unset or at
most 2,419,200; the operator count is the count of `&&` plus the count of `||`, each
the greatest number of non-overlapping instances of the operator in `Condition`; a nil
message yields `ErrInvalidMessage`; 1000 entries with a time-to-live of 2,419,200 are
accepted. -/
theorem Validate_accepts_iff :
    (∀ m : Option Message, Validate m = none ↔
      ∃ msg, m = some msg ∧
        ¬ (msg.To = "" ∧ msg.RegistrationIds = [] ∧ (msg.Condition = "" ∨ opCnt msg > 5)) ∧
        msg.RegistrationIds.length ≤ 1000 ∧
        (msg.TimeToLive = none ∨ ∃ ttl, msg.TimeToLive = some ttl ∧ ttl ≤ 2419200)) ∧
    (∀ msg : Message, opCnt msg = Count msg.Condition "&&" + Count msg.Condition "||" ∧
      (∀ op : String, op = "&&" ∨ op = "||" →
        (∀ ps, nonOverlapping op.data msg.Condition.data 0 ps = true →
          ps.length ≤ Count msg.Condition op) ∧
        (∃ ps, nonOverlapping op.data msg.Condition.data 0 ps = true ∧
          ps.length = Count msg.Condition op))) ∧
    Validate none = some Error.ErrInvalidMessage ∧
    (∀ msg : Message, msg.RegistrationIds.length = 1000 → msg.TimeToLive = some 2419200 →
      Validate (some msg) = none) := by
  refine ⟨?_, fun msg => ⟨rfl, fun op hop => ?_⟩, rfl, ?_⟩
  · intro m
    cases m with
    | none => simp [Validate]
    | some msg =>
      simp only [Option.some.injEq, exists_eq_left']
      exact Validate_some_eq_none_iff msg
  · apply Count_greatest
    rcases hop with rfl | rfl <;> decide
  · intro msg hlen httl
    have hP : ¬ (msg.To = "" ∧ msg.RegistrationIds = [] ∧
        (msg.Condition = "" ∨ opCnt msg > 5)) := by
      intro h
      rw [h.2.1] at hlen
      cases hlen
    rw [Validate_of_few msg hP (by omega), httl]
    rfl

/-- C1 at the boundary: 1000 registration ids with a time-to-live of 2,419,200. -/
theorem Validate_accepts_iff_witness :
    atTheLimits.RegistrationIds.length = 1000 ∧ atTheLimits.TimeToLive = some 2419200 ∧
      Validate (some atTheLimits) = none :=
  ⟨List.length_replicate _ _, rfl,
    Validate_accepts_iff.2.2.2 atTheLimits (List.length_replicate _ _) rfl⟩

/-- C2. For a non-nil message `Validate` returns `ErrInvalidTarget` if and only if `To`
is empty, `RegistrationIds` is empty, and `Condition` is empty or holds more than 5
occurrences of `&&` and `||` together; so a message whose three target fields are all
empty is rejected with `ErrInvalidTarget` whatever its other fields are. -/
theorem Validate_invalid_target_iff (msg : Message) :
    (Validate (some msg) = some Error.ErrInvalidTarget ↔
      msg.To = "" ∧ msg.RegistrationIds = [] ∧
        (msg.Condition = "" ∨ Count msg.Condition "&&" + Count msg.Condition "||" > 5)) ∧
    (msg.To = "" → msg.Condition = "" → msg.RegistrationIds = [] →
      Validate (some msg) = some Error.ErrInvalidTarget) := by
  change (_ ↔ msg.To = "" ∧ msg.RegistrationIds = [] ∧ (msg.Condition = "" ∨ opCnt msg > 5)) ∧ _
  refine ⟨?_, fun hto hcond hids => Validate_of_no_target msg ⟨hto, hids, Or.inl hcond⟩⟩
  constructor
  · intro h
    by_contra hP
    by_cases h2 : msg.RegistrationIds.length > 1000
    · rw [Validate_of_too_many msg hP h2] at h
      cases h
    · rw [Validate_of_few msg hP (by omega)] at h
      cases httl : msg.TimeToLive with
      | none =>
        rw [httl] at h
        cases h
      | some ttl =>
        rw [httl] at h
        by_cases h3 : ttl > 2419200
        · simp only [if_pos h3] at h
          cases h
        · simp only [if_neg h3] at h
          cases h
  · exact Validate_of_no_target msg

/-- C2 at the message whose only non-default field is a time-to-live. -/
theorem Validate_invalid_target_iff_witness :
    longLivedNoTarget.To = "" ∧ longLivedNoTarget.Condition = "" ∧
      longLivedNoTarget.RegistrationIds = [] ∧
      Validate (some longLivedNoTarget) = some Error.ErrInvalidTarget :=
  ⟨rfl, rfl, rfl, (Validate_invalid_target_iff longLivedNoTarget).2 rfl rfl rfl⟩

/-- C5. A non-nil message with more than 1000 registration ids is rejected with
`ErrToManyRegIDs`, whatever its other fields hold. -/
theorem Validate_too_many_reg_ids (msg : Message) (h : msg.RegistrationIds.length > 1000) :
    Validate (some msg) = some Error.ErrToManyRegIDs := by
  apply Validate_of_too_many msg _ h
  intro hP
  rw [hP.2.1] at h
  cases h

/-- C5 at a message with 1001 registration ids and a time-to-live above the limit. -/
theorem Validate_too_many_reg_ids_witness :
    longLivedCrowd.RegistrationIds.length > 1000 ∧
      Validate (some longLivedCrowd) = some Error.ErrToManyRegIDs :=
  have h : longLivedCrowd.RegistrationIds.length > 1000 := by
    rw [longLivedCrowd_length]
    omega
  ⟨h, Validate_too_many_reg_ids longLivedCrowd h⟩

/-- C4, as stated, fails: a message with both a direct token and a condition of six
operators is accepted. -/
theorem Validate_accepts_two_targets :
    Validate (some twoTargets) = none ∧ targetForms twoTargets = 2 ∧
      ¬ (Count twoTargets.Condition "&&" + Count twoTargets.Condition "||" ≤ 5) := by
  decide

/-- C4, amended. Every message that `Validate` accepts specifies at least one of the
three target forms and has at most 1000 registration ids; when `To` and
`RegistrationIds` are both empty its condition is non-empty and holds at most 5
operators. -/
theorem Validate_accepted_target (msg : Message) (h : Validate (some msg) = none) :
    1 ≤ targetForms msg ∧ msg.RegistrationIds.length ≤ 1000 ∧
      (msg.To = "" → msg.RegistrationIds = [] →
        msg.Condition ≠ "" ∧ Count msg.Condition "&&" + Count msg.Condition "||" ≤ 5) := by
  obtain ⟨hP, hlen, _⟩ := (Validate_some_eq_none_iff msg).mp h
  have hcond : msg.To = "" → msg.RegistrationIds = [] →
      msg.Condition ≠ "" ∧ opCnt msg ≤ 5 := by
    intro hto hids
    constructor
    · intro hc
      exact hP ⟨hto, hids, Or.inl hc⟩
    · by_contra hop
      exact hP ⟨hto, hids, Or.inr (by omega)⟩
  refine ⟨?_, hlen, hcond⟩
  unfold targetForms
  by_cases hto : msg.To = ""
  · by_cases hids : msg.RegistrationIds = []
    · rw [if_pos hto, if_pos hids, if_neg (hcond hto hids).1]
    · rw [if_neg hids]
      omega
  · rw [if_neg hto]
    omega

/-- C4, amended, at a message whose only target is a condition of two operators. -/
theorem Validate_accepted_target_witness :
    Validate (some { Condition := "a && b || c" }) = none ∧
      1 ≤ targetForms { Condition := "a && b || c" } :=
  ⟨by decide, (Validate_accepted_target { Condition := "a && b || c" } (by decide)).1⟩

/-- C6, as stated, fails: with a time-to-live of 2,419,201 a message without a target is
rejected with `ErrInvalidTarget`, and one with 1001 registration ids with
`ErrToManyRegIDs`. -/
theorem Validate_long_lived_other_error :
    longLivedNoTarget.TimeToLive = some 2419201 ∧
      Validate (some longLivedNoTarget) = some Error.ErrInvalidTarget ∧
      longLivedCrowd.TimeToLive = some 2419201 ∧
      Validate (some longLivedCrowd) = some Error.ErrToManyRegIDs := by
  refine ⟨rfl, by decide, rfl, ?_⟩
  apply Validate_of_too_many _ longLivedCrowd_target
  rw [longLivedCrowd_length]
  omega

/-- C6, amended. A non-nil message whose time-to-live is present and above 2,419,200 is
always rejected: with `ErrInvalidTarget` when it fails the target test, else with
`ErrToManyRegIDs` when it has more than 1000 registration ids, and with
`ErrInvalidTimeToLive` in every other case. -/
theorem Validate_long_lived (msg : Message) (ttl : Nat) (httl : msg.TimeToLive = some ttl)
    (h : ttl > 2419200) :
    Validate (some msg) =
      if msg.To = "" ∧ msg.RegistrationIds = [] ∧
          (msg.Condition = "" ∨ Count msg.Condition "&&" + Count msg.Condition "||" > 5) then
        some Error.ErrInvalidTarget
      else if msg.RegistrationIds.length > 1000 then some Error.ErrToManyRegIDs
      else some Error.ErrInvalidTimeToLive := by
  change _ = if msg.To = "" ∧ msg.RegistrationIds = [] ∧
      (msg.Condition = "" ∨ opCnt msg > 5) then _ else _
  by_cases hP : msg.To = "" ∧ msg.RegistrationIds = [] ∧ (msg.Condition = "" ∨ opCnt msg > 5)
  · rw [if_pos hP, Validate_of_no_target msg hP]
  · by_cases h2 : msg.RegistrationIds.length > 1000
    · rw [if_neg hP, if_pos h2, Validate_of_too_many msg hP h2]
    · rw [if_neg hP, if_neg h2, Validate_of_few msg hP (by omega), httl]
      simp only [if_pos h]

/-- C6, amended, at a message with a direct token and a time-to-live of 2,419,201. -/
theorem Validate_long_lived_witness :
    Validate (some { To := "t", TimeToLive := some 2419201 }) =
      some Error.ErrInvalidTimeToLive :=
  (Validate_long_lived { To := "t", TimeToLive := some 2419201 } 2419201 rfl
    (by decide)).trans (by decide)

/-! ## Sending -/

/-- Every error of `Validate` is one of its four error values. -/
theorem Validate_error_cases (m : Option Message) (e : Error) (h : Validate m = some e) :
    e = Error.ErrInvalidMessage ∨ e = Error.ErrInvalidTarget ∨ e = Error.ErrToManyRegIDs ∨
      e = Error.ErrInvalidTimeToLive := by
  cases m with
  | none =>
    simp only [Validate, Option.some.injEq] at h
    exact Or.inl h.symm
  | some msg =>
    by_cases hP : msg.To = "" ∧ msg.RegistrationIds = [] ∧ (msg.Condition = "" ∨ opCnt msg > 5)
    · rw [Validate_of_no_target msg hP, Option.some.injEq] at h
      exact Or.inr (Or.inl h.symm)
    · by_cases h2 : msg.RegistrationIds.length > 1000
      · rw [Validate_of_too_many msg hP h2, Option.some.injEq] at h
        exact Or.inr (Or.inr (Or.inl h.symm))
      · rw [Validate_of_few msg hP (by omega)] at h
        cases httl : msg.TimeToLive with
        | none =>
          rw [httl] at h
          cases h
        | some ttl =>
          rw [httl] at h
          by_cases h3 : ttl > 2419200
          · simp only [if_pos h3, Option.some.injEq] at h
            exact Or.inr (Or.inr (Or.inr h.symm))
          · simp only [if_neg h3] at h
            cases h

/-- C3. When `Validate` returns an error for a message (nil included), `Send` returns no
result and that very error, hands no request to the transport, and the error is one of
`ErrInvalidMessage`, `ErrInvalidTarget`, `ErrToManyRegIDs`, `ErrInvalidTimeToLive`. -/
theorem Send_validation_error (h : Http) (c : Client) (message : Option Message) (e : Error)
    (he : Validate message = some e) :
    Send h c message = (.error e, []) ∧
      (e = Error.ErrInvalidMessage ∨ e = Error.ErrInvalidTarget ∨
        e = Error.ErrToManyRegIDs ∨ e = Error.ErrInvalidTimeToLive) := by
  refine ⟨?_, Validate_error_cases message e he⟩
  simp only [Send, he]

/-- C3 at the nil message, sent to a server that would answer `200 OK`. -/
theorem Send_validation_error_witness :
    Validate none = some Error.ErrInvalidMessage ∧
      Send emptyObjectServer plainClient none = (.error Error.ErrInvalidMessage, []) :=
  ⟨rfl, (Send_validation_error emptyObjectServer plainClient none Error.ErrInvalidMessage rfl).1⟩

/-! ## Construction -/

/-- Options that leave the two keys alone hand them on to the constructed client. -/
theorem applyOptions_keys (opts : List ClientOption)
    (hopts : ∀ o ∈ opts, ∀ c : Client, (o c).2.ApiKey = c.ApiKey ∧ (o c).2.ServerKey = c.ServerKey)
    (c client : Client) (n k : Nat) (h : applyOptions opts c n = (.ok client, k)) :
    client.ApiKey = c.ApiKey ∧ client.ServerKey = c.ServerKey := by
  induction opts generalizing c n with
  | nil =>
    simp only [applyOptions, Prod.mk.injEq, Except.ok.injEq] at h
    rw [← h.1]
    exact ⟨rfl, rfl⟩
  | cons o rest ih =>
    have ho := hopts o (List.mem_cons_self _ _) c
    rcases hoc : o c with ⟨err, c1⟩
    rw [hoc] at ho
    cases err with
    | some err =>
      simp only [applyOptions, hoc, Prod.mk.injEq] at h
      cases h.1
    | none =>
      simp only [applyOptions, hoc] at h
      have := ih (fun o ho => hopts o (List.mem_cons_of_mem _ ho)) c1 (n + 1) h
      exact ⟨this.1.trans ho.1, this.2.trans ho.2⟩

/-- What the options of `WithTimeout` make of a client: the first duration that is not
positive ends the construction, otherwise the last duration is the timeout. -/
theorem applyOptions_WithTimeout (ds : List Int) (c : Client) (n : Nat) :
    (applyOptions (ds.map WithTimeout) c n).1 =
      if ∃ d ∈ ds, d ≤ 0 then .error Error.invalidTimeout
      else .ok { c with timeout := ds.getLastD c.timeout } := by
  induction ds generalizing c n with
  | nil => simp [applyOptions]
  | cons d rest ih =>
    by_cases hd : d ≤ 0
    · have hex : ∃ x ∈ d :: rest, x ≤ 0 := ⟨d, List.mem_cons_self _ _, hd⟩
      simp only [List.map_cons, applyOptions, WithTimeout, if_pos hd, if_pos hex]
    · simp only [List.map_cons, applyOptions, WithTimeout, if_neg hd]
      rw [ih]
      have hiff : (∃ x ∈ d :: rest, x ≤ 0) ↔ ∃ x ∈ rest, x ≤ 0 := by
        simp only [List.mem_cons, exists_eq_or_imp, hd, false_or]
      by_cases hex : ∃ x ∈ rest, x ≤ 0
      · rw [if_pos hex, if_pos (hiff.mpr hex)]
      · rw [if_neg hex, if_neg (fun h => hex (hiff.mp h))]
        cases rest with
        | nil => rfl
        | cons d1 rest1 => rfl

/-- C7, as stated, fails in its last sentence: with a user-written option that clears the
API key, `NewClient("k", "s", ...)` returns a client whose `ApiKey` is empty. -/
theorem NewClient_returns_empty_key :
    NewClient "k" "s" [clearApiKey] =
      (.ok { ApiKey := "", ServerKey := "s", timeout := DefaultTimeout }, 1) := by
  rfl

/-- C7, amended. With an empty API key `NewClient` returns no client and
`ErrInvalidAPIKey`, with a non-empty API key and an empty server key no client and
`ErrInvalidServerKey`, in both cases without calling any option; and when every option
leaves `ApiKey` and `ServerKey` unchanged, as every `WithTimeout` option does, a client
that `NewClient` returns has the two non-empty arguments as its keys. -/
theorem NewClient_missing_credentials :
    (∀ (serverKey : String) (opts : List ClientOption),
      NewClient "" serverKey opts = (.error Error.ErrInvalidAPIKey, 0)) ∧
    (∀ (apiKey : String) (opts : List ClientOption), apiKey ≠ "" →
      NewClient apiKey "" opts = (.error Error.ErrInvalidServerKey, 0)) ∧
    (∀ (apiKey serverKey : String) (opts : List ClientOption) (client : Client) (n : Nat),
      (∀ o ∈ opts, ∀ c : Client, (o c).2.ApiKey = c.ApiKey ∧ (o c).2.ServerKey = c.ServerKey) →
      NewClient apiKey serverKey opts = (.ok client, n) →
      client.ApiKey = apiKey ∧ client.ServerKey = serverKey ∧
        client.ApiKey ≠ "" ∧ client.ServerKey ≠ "") ∧
    (∀ (d : Int) (c : Client),
      (WithTimeout d c).2.ApiKey = c.ApiKey ∧ (WithTimeout d c).2.ServerKey = c.ServerKey) := by
  refine ⟨fun _ _ => rfl, fun apiKey opts ha => ?_, ?_, ?_⟩
  · simp only [NewClient, if_neg ha, if_true]
  · intro apiKey serverKey opts client n hopts h
    by_cases ha : apiKey = ""
    · simp only [NewClient, if_pos ha, Prod.mk.injEq] at h
      cases h.1
    · by_cases hs : serverKey = ""
      · simp only [NewClient, if_neg ha, if_pos hs, Prod.mk.injEq] at h
        cases h.1
      · simp only [NewClient, if_neg ha, if_neg hs] at h
        have hk := applyOptions_keys opts hopts _ client 0 n h
        simp only at hk
        exact ⟨hk.1, hk.2, hk.1 ▸ ha, hk.2 ▸ hs⟩
  · intro d c
    unfold WithTimeout
    split_ifs <;> exact ⟨rfl, rfl⟩

/-- C7, amended, at a missing server key, with an option that would fail if called. -/
theorem NewClient_missing_credentials_witness :
    NewClient "k" "" [WithTimeout 0] = (.error Error.ErrInvalidServerKey, 0) :=
  NewClient_missing_credentials.2.1 "k" [WithTimeout 0] (by decide)

/-- C8. With both keys non-empty and the options `WithTimeout d1 .. WithTimeout dn`,
`NewClient` returns an error and no client if and only if some duration is zero or
negative; otherwise it returns the client with the two keys whose timeout is the last
duration, or the 30 seconds of `DefaultTimeout` when there is no option. -/
theorem NewClient_WithTimeout (apiKey serverKey : String) (ds : List Int)
    (ha : apiKey ≠ "") (hs : serverKey ≠ "") :
    ((∃ e, (NewClient apiKey serverKey (ds.map WithTimeout)).1 = .error e) ↔
      ∃ d ∈ ds, d ≤ 0) ∧
    ((¬ ∃ d ∈ ds, d ≤ 0) →
      (NewClient apiKey serverKey (ds.map WithTimeout)).1 =
        .ok { ApiKey := apiKey, ServerKey := serverKey,
              timeout := ds.getLastD (30 * 1000000000) }) ∧
    (NewClient apiKey serverKey []).1 =
      .ok { ApiKey := apiKey, ServerKey := serverKey, timeout := 30 * 1000000000 } := by
  have hnew : (NewClient apiKey serverKey (ds.map WithTimeout)).1 =
      if ∃ d ∈ ds, d ≤ 0 then .error Error.invalidTimeout
      else .ok { ApiKey := apiKey, ServerKey := serverKey,
                 timeout := ds.getLastD DefaultTimeout } := by
    simp only [NewClient, if_neg ha, if_neg hs]
    rw [applyOptions_WithTimeout]
  refine ⟨?_, ?_, ?_⟩
  · by_cases hex : ∃ d ∈ ds, d ≤ 0
    · rw [hnew, if_pos hex]
      exact ⟨fun _ => hex, fun _ => ⟨_, rfl⟩⟩
    · rw [hnew, if_neg hex]
      constructor
      · rintro ⟨e, he⟩
        cases he
      · intro h
        exact absurd h hex
  · intro hex
    rw [hnew, if_neg hex]
    rfl
  · simp only [NewClient, if_neg ha, if_neg hs, applyOptions]
    rfl

/-- C8 at the durations of five seconds and two seconds. -/
theorem NewClient_WithTimeout_witness :
    (NewClient "k" "s" ([5000000000, 2000000000].map WithTimeout)).1 =
      .ok { ApiKey := "k", ServerKey := "s", timeout := 2000000000 } :=
  (NewClient_WithTimeout "k" "s" [5000000000, 2000000000] (by decide) (by decide)).2.1
    (by decide)

/-! ## User lookup -/

/-- C9, on the code: when the server answers 200 and the body decodes without error to
a response that carries no users, `GetUser` indexes into the empty list and ends in a
run-time panic; it returns neither a user nor an error. -/
theorem GetUser_empty_list_faults (h : Http) (c : Client) (token : String)
    (resp : Response) (sent : List Request) (result : LookupUserResponse)
    (hreq : request h c "POST" (API_USER_LOOKUP c.ApiKey)
      (encodeStringMap [("idToken", token)]) = (.ok resp, sent))
    (h200 : resp.StatusCode = 200)
    (hdec : h.DecodeLookupUser resp.Body = (none, result))
    (hempty : result.Users = []) :
    (GetUser h c token).1 = .fault "index out of range [0] with length 0" := by
  simp only [GetUser, hreq, h200, ne_eq, not_true_eq_false, if_false, hdec, hempty, firstUser]

/-- C9, on the code, at a server that answers `200 OK` with an empty object. -/
theorem GetUser_empty_list_faults_witness :
    (GetUser emptyObjectServer plainClient "token").1 =
      .fault "index out of range [0] with length 0" :=
  GetUser_empty_list_faults emptyObjectServer plainClient "token"
    { StatusCode := 200, Status := "200 OK", Body := "\x7b\x7d" } _ {} rfl rfl rfl rfl

/-! ## Serialization -/

/-- The keys selected from a list of names with their tests, one name at a time. -/
theorem selected_cons (nb : String × Bool) (l : List (String × Bool)) :
    ((nb :: l).filter fun x => x.2).map Prod.fst =
      (if nb.2 = true then [nb.1] else []) ++ (l.filter fun x => x.2).map Prod.fst := by
  cases h : nb.2 <;> simp [List.filter_cons, h]

/-- The key of a `string` field. -/
theorem stringField_keys (name v : String) :
    (stringField name v).map Prod.fst = if (v != "") = true then [name] else [] := by
  unfold stringField
  by_cases h : v = "" <;> simp [h]

/-- The key of a `bool` field. -/
theorem boolField_keys (name : String) (v : Bool) :
    (boolField name v).map Prod.fst = if v = true then [name] else [] := by
  unfold boolField
  cases v <;> simp

/-- The key of a `[]string` field. -/
theorem stringsField_keys (name : String) (v : List String) :
    (stringsField name v).map Prod.fst = if (!v.isEmpty) = true then [name] else [] := by
  unfold stringsField
  cases v <;> simp

/-- The key of a `*uint` field. -/
theorem uintPtrField_keys (name : String) (v : Option Nat) :
    (uintPtrField name v).map Prod.fst = if v.isSome = true then [name] else [] := by
  unfold uintPtrField
  cases v <;> simp

/-- The key of a `map[string]string` field. -/
theorem stringMapField_keys (name : String) (v : List (String × String)) :
    (stringMapField name v).map Prod.fst = if (!v.isEmpty) = true then [name] else [] := by
  unfold stringMapField
  cases v <;> simp

/-- The key of a `*Notification` field. -/
theorem notificationPtrField_keys (name : String) (v : Option Notification) :
    (notificationPtrField name v).map Prod.fst = if v.isSome = true then [name] else [] := by
  unfold notificationPtrField
  cases v <;> simp

/-- The key of a `map[string]interface{}` field that was encoded without error. -/
theorem ifaceMapField_keys (name : String) (v : List (String × Iface)) (fs : Fields)
    (h : ifaceMapField name v = .ok fs) :
    fs.map Prod.fst = if (!v.isEmpty) = true then [name] else [] := by
  unfold ifaceMapField at h
  cases v with
  | nil =>
    simp only [List.length_nil, if_true, Except.ok.injEq] at h
    rw [← h]
    rfl
  | cons kv rest =>
    simp only [List.length_cons, Nat.add_one_ne_zero, if_false] at h
    cases henc : encodeIfaceEntries (sortedEntries (kv :: rest)) with
    | error e =>
      rw [henc] at h
      cases h
    | ok entries =>
      rw [henc] at h
      simp only [Except.ok.injEq] at h
      rw [← h]
      rfl

/-- The keys of an encoded message are the names of its non-empty fields, in the order
of the struct. -/
theorem messageFields_keys (msg : Message) (fs : Fields) (h : messageFields msg = .ok fs) :
    fs.map Prod.fst = ((wireNames msg).filter fun x => x.2).map Prod.fst := by
  unfold messageFields at h
  cases hapns : ifaceMapField "apns" msg.Apns with
  | error e =>
    rw [hapns] at h
    cases h
  | ok apns =>
    cases hweb : ifaceMapField "webpush" msg.Webpush with
    | error e =>
      rw [hapns, hweb] at h
      cases h
    | ok webpush =>
      rw [hapns, hweb] at h
      simp only [Except.ok.injEq] at h
      rw [← h]
      simp only [wireNames, selected_cons, List.filter_nil, List.map_nil, List.map_append,
        List.append_assoc, stringField_keys, boolField_keys, stringsField_keys,
        uintPtrField_keys, stringMapField_keys, notificationPtrField_keys,
        ifaceMapField_keys "apns" msg.Apns apns hapns,
        ifaceMapField_keys "webpush" msg.Webpush webpush hweb, List.append_nil]

/-- Every request that `Send` hands to the transport carries the encoded message. -/
theorem Send_request_body (h : Http) (c : Client) (msg : Message) (req : Request)
    (hreq : req ∈ (Send h c (some msg)).2) :
    ∃ fs, messageFields msg = .ok fs ∧ req.Body = renderObject fs := by
  unfold Send at hreq
  cases hval : Validate (some msg) with
  | some err =>
    rw [hval] at hreq
    cases hreq
  | none =>
    rw [hval] at hreq
    cases hfs : messageFields msg with
    | error e =>
      simp only [Marshal, hfs] at hreq
      cases hreq
    | ok fs =>
      refine ⟨fs, rfl, ?_⟩
      simp only [Marshal, hfs, request, requestWithContext] at hreq
      cases hnew : h.NewRequestErr "POST" API_SEND_MESSAGE with
      | some err =>
        simp only [hnew] at hreq
        cases hreq
      | none =>
        simp only [hnew] at hreq
        generalize hdo : h.Do _ = r at hreq
        cases r with
        | error e =>
          simp only [List.mem_singleton] at hreq
          rw [hreq]
        | ok resp =>
          simp only at hreq
          split at hreq
          · simp only [List.mem_singleton] at hreq
            rw [hreq]
          · split at hreq <;>
            · simp only [List.mem_singleton] at hreq
              rw [hreq]

/-! ## The encoder read back -/

/-- The characters of an encoded string: a quote, the escaped characters, a quote. -/
theorem encodeString_data (s : String) :
    (encodeString s).data =
      Char.ofNat 34 :: (s.data.flatMap escapeChar ++ [Char.ofNat 34]) := by
  simp only [encodeString, String.data_append]
  rfl

/-- The characters of strings joined by commas, after the first string. -/
theorem intercalate_go_data (acc : String) (xs : List String) :
    (String.intercalate.go acc "," xs).data =
      acc.data ++ xs.flatMap fun x => Char.ofNat 44 :: x.data := by
  induction xs generalizing acc with
  | nil => simp [String.intercalate.go]
  | cons x rest ih =>
    simp only [String.intercalate.go, ih, String.data_append, List.flatMap_cons,
      List.append_assoc]
    rfl

/-- The characters of a non-empty list of strings joined by commas. -/
theorem intercalate_data (x : String) (xs : List String) :
    (",".intercalate (x :: xs)).data =
      x.data ++ xs.flatMap fun y => Char.ofNat 44 :: y.data := by
  simp only [String.intercalate, intercalate_go_data]

/-- A run over two texts is a run over the first and then over the second. -/
theorem run_append (u v : List Char) :
    ∀ m : Mode, Mode.run m (u ++ v) = (Mode.run m u).bind fun m1 => Mode.run m1 v := by
  induction u with
  | nil =>
    intro m
    rfl
  | cons c t ih =>
    intro m
    simp only [List.cons_append, Mode.run]
    cases m.next c with
    | none => rfl
    | some m1 => exact ih m1

/-- A run over two texts, the first of which leads to a known mode. -/
theorem run_append_of (u v : List Char) (m m1 : Mode) (h : Mode.run m u = some m1) :
    Mode.run m (u ++ v) = Mode.run m1 v := by
  rw [run_append, h]
  rfl

/-- A hexadecimal digit is neither a quote nor a backslash. -/
theorem hexDigit_ordinary (n : Nat) : (hexDigit n).toNat ≠ 34 ∧ (hexDigit n).toNat ≠ 92 := by
  by_cases h : n < 16
  · interval_cases n <;> decide
  · have : hexDigit n = '0' := by
      unfold hexDigit
      apply List.getD_eq_default
      simp only [not_lt] at h
      exact h
    rw [this]
    decide

/-- Inside a string a character other than the quote and the backslash changes nothing. -/
theorem next_text_ordinary (d : Nat) (c : Char) (h1 : c.toNat ≠ 34) (h2 : c.toNat ≠ 92) :
    Mode.next (.text d) c = some (.text d) := by
  simp only [Mode.next, if_neg h1, if_neg h2]

/-- One step of a run. -/
theorem run_cons_of (m m1 : Mode) (c : Char) (t : List Char) (h : m.next c = some m1) :
    Mode.run m (c :: t) = Mode.run m1 t := by
  simp only [Mode.run, h]

/-- Inside a string a run of characters other than the quote and the backslash changes
nothing. -/
theorem run_text_ordinary (d : Nat) (cs : List Char)
    (h : ∀ x ∈ cs, x.toNat ≠ 34 ∧ x.toNat ≠ 92) :
    Mode.run (.text d) cs = some (.text d) := by
  induction cs with
  | nil => rfl
  | cons c t ih =>
    have hc := h c (List.mem_cons_self _ _)
    rw [run_cons_of _ _ _ _ (next_text_ordinary d c hc.1 hc.2)]
    exact ih fun x hx => h x (List.mem_cons_of_mem _ hx)

/-- Inside a string a backslash, any character after it and a run of characters other
than the quote and the backslash leave the reader inside the string. -/
theorem run_text_escape (d : Nat) (e : Char) (cs : List Char)
    (h : ∀ x ∈ cs, x.toNat ≠ 34 ∧ x.toNat ≠ 92) :
    Mode.run (.text d) (Char.ofNat 92 :: e :: cs) = some (.text d) := by
  have h1 : Mode.next (.text d) (Char.ofNat 92) = some (.escaped d) := rfl
  have h2 : Mode.next (.escaped d) e = some (.text d) := rfl
  rw [run_cons_of _ _ _ _ h1, run_cons_of _ _ _ _ h2]
  exact run_text_ordinary d cs h

/-- Inside a string the escape of a character leaves the reader inside the string. -/
theorem run_escapeChar (d : Nat) (c : Char) :
    Mode.run (.text d) (escapeChar c) = some (.text d) := by
  unfold escapeChar
  simp only
  split_ifs with h1 h2 h3 h4 h5 h6 h7 h8
  · exact run_text_escape d c [] (by simp)
  · exact run_text_escape d 'b' [] (by simp)
  · exact run_text_escape d 'f' [] (by simp)
  · exact run_text_escape d 'n' [] (by simp)
  · exact run_text_escape d 'r' [] (by simp)
  · exact run_text_escape d 't' [] (by simp)
  · refine run_text_escape d 'u'
      ['0', '0', hexDigit (c.toNat / 16), hexDigit (c.toNat % 16)] ?_
    intro x hx
    simp only [List.mem_cons, List.mem_singleton, List.not_mem_nil, or_false] at hx
    rcases hx with rfl | rfl | rfl | rfl
    · decide
    · decide
    · exact hexDigit_ordinary _
    · exact hexDigit_ordinary _
  · refine run_text_escape d 'u' ['2', '0', '2', hexDigit (c.toNat % 16)] ?_
    intro x hx
    simp only [List.mem_cons, List.mem_singleton, List.not_mem_nil, or_false] at hx
    rcases hx with rfl | rfl | rfl | rfl
    · decide
    · decide
    · decide
    · exact hexDigit_ordinary _
  · have hq : c.toNat ≠ 34 := fun h => h1 (Or.inl h)
    have hb : c.toNat ≠ 92 := fun h => h1 (Or.inr h)
    exact run_text_ordinary d [c] (by simpa using ⟨hq, hb⟩)

/-- Inside a string the escapes of a run of characters leave the reader inside it. -/
theorem run_escaped (d : Nat) (cs : List Char) :
    Mode.run (.text d) (cs.flatMap escapeChar) = some (.text d) := by
  induction cs with
  | nil => rfl
  | cons c t ih =>
    rw [List.flatMap_cons, run_append_of _ _ _ _ (run_escapeChar d c)]
    exact ih

/-- An encoded string is well nested. -/
theorem wellNested_encodeString (s : String) : WellNested (encodeString s) := by
  intro d
  have h1 : Mode.next (.plain d) (Char.ofNat 34) = some (.text d) := rfl
  have h2 : Mode.next (.text d) (Char.ofNat 34) = some (.plain d) := rfl
  rw [encodeString_data, run_cons_of _ _ _ _ h1, run_append_of _ _ _ _ (run_escaped d s.data),
    run_cons_of _ _ _ _ h2]
  rfl

/-- Outside a string a character that is no quote, bracket, brace or comma changes
nothing. -/
theorem next_plain_ordinary (d : Nat) (c : Char)
    (h : c.toNat ≠ 34 ∧ c.toNat ≠ 123 ∧ c.toNat ≠ 91 ∧ c.toNat ≠ 125 ∧ c.toNat ≠ 93 ∧
      c.toNat ≠ 44) :
    Mode.next (.plain d) c = some (.plain d) := by
  obtain ⟨h1, h2, h3, h4, h5, h6⟩ := h
  simp only [Mode.next, if_neg h1, h2, h3, h4, h5, h6, or_self, false_and, if_false]

/-- Outside a string a run of characters that are no quote, bracket, brace or comma
changes nothing. -/
theorem run_plain_ordinary (d : Nat) (cs : List Char)
    (h : ∀ x ∈ cs, x.toNat ≠ 34 ∧ x.toNat ≠ 123 ∧ x.toNat ≠ 91 ∧ x.toNat ≠ 125 ∧
      x.toNat ≠ 93 ∧ x.toNat ≠ 44) :
    Mode.run (.plain d) cs = some (.plain d) := by
  induction cs with
  | nil => rfl
  | cons c t ih =>
    rw [run_cons_of _ _ _ _ (next_plain_ordinary d c (h c (List.mem_cons_self _ _)))]
    exact ih fun x hx => h x (List.mem_cons_of_mem _ hx)

/-- The text `true` is well nested. -/
theorem wellNested_true : WellNested "true" := by
  intro d
  apply run_plain_ordinary
  decide

/-- A decimal digit is no quote, bracket, brace or comma. -/
theorem digitChar_ordinary (k : Nat) (hk : k < 10) :
    (Nat.digitChar k).toNat ≠ 34 ∧ (Nat.digitChar k).toNat ≠ 123 ∧
      (Nat.digitChar k).toNat ≠ 91 ∧ (Nat.digitChar k).toNat ≠ 125 ∧
      (Nat.digitChar k).toNat ≠ 93 ∧ (Nat.digitChar k).toNat ≠ 44 := by
  interval_cases k <;> decide

/-- The decimal digits of a number are no quotes, brackets, braces or commas. -/
theorem toDigitsCore_ordinary (fuel : Nat) :
    ∀ (n : Nat) (ds : List Char),
      (∀ x ∈ ds, x.toNat ≠ 34 ∧ x.toNat ≠ 123 ∧ x.toNat ≠ 91 ∧ x.toNat ≠ 125 ∧
        x.toNat ≠ 93 ∧ x.toNat ≠ 44) →
      ∀ x ∈ Nat.toDigitsCore 10 fuel n ds, x.toNat ≠ 34 ∧ x.toNat ≠ 123 ∧ x.toNat ≠ 91 ∧
        x.toNat ≠ 125 ∧ x.toNat ≠ 93 ∧ x.toNat ≠ 44 := by
  induction fuel with
  | zero =>
    intro n ds h x hx
    exact h x hx
  | succ fuel ih =>
    intro n ds h
    have hds : ∀ x ∈ Nat.digitChar (n % 10) :: ds, x.toNat ≠ 34 ∧ x.toNat ≠ 123 ∧
        x.toNat ≠ 91 ∧ x.toNat ≠ 125 ∧ x.toNat ≠ 93 ∧ x.toNat ≠ 44 := by
      intro x hx
      rcases List.mem_cons.mp hx with rfl | hx
      · exact digitChar_ordinary _ (Nat.mod_lt _ (by decide))
      · exact h x hx
    simp only [Nat.toDigitsCore]
    split_ifs
    · exact hds
    · exact ih _ _ hds

/-- A number written in decimal is well nested. -/
theorem wellNested_decimal (n : Nat) : WellNested (toString n) := by
  intro d
  apply run_plain_ordinary
  exact toDigitsCore_ordinary _ _ _ (by simp)

/-- At depth one or more, well nested items with commas before them change nothing. -/
theorem run_comma_items (d : Nat) (xs : List String) (h : ∀ x ∈ xs, WellNested x) :
    Mode.run (.plain (d + 1)) (xs.flatMap fun x => Char.ofNat 44 :: x.data) =
      some (.plain (d + 1)) := by
  induction xs with
  | nil => rfl
  | cons x rest ih =>
    have hc : Mode.next (.plain (d + 1)) (Char.ofNat 44) = some (.plain (d + 1)) := rfl
    rw [List.flatMap_cons, List.cons_append, run_cons_of _ _ _ _ hc,
      run_append_of _ _ _ _ (h x (List.mem_cons_self _ _) (d + 1))]
    exact ih fun y hy => h y (List.mem_cons_of_mem _ hy)

/-- Well nested items joined by commas change nothing at depth one or more. -/
theorem run_joined (d : Nat) (xs : List String) (h : ∀ x ∈ xs, WellNested x) :
    Mode.run (.plain (d + 1)) (",".intercalate xs).data = some (.plain (d + 1)) := by
  cases xs with
  | nil => rfl
  | cons x rest =>
    rw [intercalate_data, run_append_of _ _ _ _ (h x (List.mem_cons_self _ _) (d + 1))]
    exact run_comma_items d rest fun y hy => h y (List.mem_cons_of_mem _ hy)

/-- Well nested items joined by commas between brackets or braces are well nested. -/
theorem wellNested_enclosed (o c : Char) (xs : List String)
    (ho : o.toNat = 123 ∨ o.toNat = 91) (hc : c.toNat = 125 ∨ c.toNat = 93)
    (h : ∀ x ∈ xs, WellNested x) :
    WellNested (String.mk [o] ++ ",".intercalate xs ++ String.mk [c]) := by
  intro d
  have h1 : Mode.next (.plain d) o = some (.plain (d + 1)) := by
    rcases ho with ho | ho <;> simp [Mode.next, ho]
  have h2 : Mode.next (.plain (d + 1)) c = some (.plain d) := by
    rcases hc with hc | hc <;> simp [Mode.next, hc]
  simp only [String.data_append, List.singleton_append, List.cons_append, List.nil_append]
  rw [run_cons_of _ _ _ _ h1, run_append_of _ _ _ _ (run_joined d xs h),
    run_cons_of _ _ _ _ h2]
  rfl

/-- The text of a member with a well nested value is well nested. -/
theorem wellNested_member (k v : String) (hv : WellNested v) :
    WellNested (encodeString k ++ ":" ++ v) := by
  intro d
  have hcolon : Mode.next (.plain d) ':' = some (.plain d) := rfl
  simp only [String.data_append]
  rw [List.append_assoc, run_append_of _ _ _ _ (wellNested_encodeString k d)]
  show Mode.run (.plain d) (':' :: v.data) = _
  rw [run_cons_of _ _ _ _ hcolon]
  exact hv d

/-- An object whose values are well nested is well nested. -/
theorem wellNested_renderObject (fs : Fields) (h : ∀ kv ∈ fs, WellNested kv.2) :
    WellNested (renderObject fs) := by
  apply wellNested_enclosed (Char.ofNat 123) (Char.ofNat 125) _ (Or.inl rfl) (Or.inl rfl)
  intro x hx
  obtain ⟨kv, hkv, rfl⟩ := List.mem_map.mp hx
  exact wellNested_member kv.1 kv.2 (h kv hkv)

/-- An encoded list of strings is well nested. -/
theorem wellNested_encodeStrings (xs : List String) : WellNested (encodeStrings xs) := by
  apply wellNested_enclosed (Char.ofNat 91) (Char.ofNat 93) _ (Or.inr rfl) (Or.inr rfl)
  intro x hx
  obtain ⟨y, _, rfl⟩ := List.mem_map.mp hx
  exact wellNested_encodeString y

/-- Cutting into items: a character that does not end the item joins it. -/
theorem splitItems_step (close : Nat) (m m1 : Mode) (cur : List Char)
    (done : List (List Char)) (c : Char) (t : List Char) (h : m.next c = some m1) :
    splitItems close m cur done (c :: t) = splitItems close m1 (c :: cur) done t := by
  simp only [splitItems, h]

/-- Cutting into items: a comma at depth 0 ends the item and starts the next. -/
theorem splitItems_comma (close : Nat) (cur : List Char) (done : List (List Char))
    (t : List Char) :
    splitItems close (.plain 0) cur done (Char.ofNat 44 :: t) =
      splitItems close (.plain 0) [] (cur.reverse :: done) t := by
  have hnext : Mode.next (.plain 0) (Char.ofNat 44) = none := rfl
  have h44 : (Char.ofNat 44).toNat = 44 := rfl
  simp only [splitItems, hnext, h44, if_true]

/-- Cutting into items: the closing character at the end of the text ends the last item. -/
theorem splitItems_close (close : Nat) (c : Char) (hc : c.toNat = close)
    (hclose : close = 125 ∨ close = 93) (cur : List Char) (done : List (List Char)) :
    splitItems close (.plain 0) cur done [c] = some ((cur.reverse :: done).reverse) := by
  have hnext : Mode.next (.plain 0) c = none := by
    rcases hclose with h1 | h1 <;> simp [Mode.next, hc, h1]
  have h44 : c.toNat ≠ 44 := by
    rcases hclose with h1 | h1 <;> omega
  simp only [splitItems, hnext, if_neg h44]
  rw [if_pos]
  exact ⟨hc, by simp⟩

/-- Cutting into items passes over a run of characters that does not end the item. -/
theorem splitItems_run (close : Nat) (v rest : List Char) :
    ∀ (m m1 : Mode) (cur : List Char) (done : List (List Char)),
      Mode.run m v = some m1 →
      splitItems close m cur done (v ++ rest) = splitItems close m1 (v.reverse ++ cur) done rest := by
  induction v with
  | nil =>
    intro m m1 cur done h
    simp only [Mode.run, Option.some.injEq] at h
    rw [h]
    rfl
  | cons c t ih =>
    intro m m1 cur done h
    cases hn : m.next c with
    | none =>
      simp only [Mode.run, hn] at h
      cases h
    | some m2 =>
      rw [run_cons_of _ _ _ _ hn] at h
      rw [List.cons_append, splitItems_step close m m2 cur done c _ hn, ih m2 m1 (c :: cur) done h]
      simp

/-- Cutting the text of well nested items joined by commas, with the closing character
at its end, gives back the items. -/
theorem splitItems_joined (close : Nat) (c : Char) (hc : c.toNat = close)
    (hclose : close = 125 ∨ close = 93) (xs : List String) :
    ∀ (x : String) (done : List (List Char)),
      (∀ y ∈ x :: xs, WellNested y) →
      splitItems close (.plain 0) [] done
          (x.data ++ ((xs.flatMap fun y => Char.ofNat 44 :: y.data) ++ [c])) =
        some (done.reverse ++ (x :: xs).map String.data) := by
  induction xs with
  | nil =>
    intro x done h
    have hx := h x (List.mem_cons_self _ _) 0
    rw [List.flatMap_nil, List.nil_append, splitItems_run close _ _ _ _ _ _ hx,
      splitItems_close close c hc hclose]
    simp
  | cons y ys ih =>
    intro x done h
    have hx := h x (List.mem_cons_self _ _) 0
    rw [splitItems_run close _ _ _ _ _ _ hx, List.flatMap_cons, List.cons_append,
      List.cons_append, splitItems_comma, List.append_assoc,
      ih y _ fun z hz => h z (List.mem_cons_of_mem _ hz)]
    simp

/-- Reading the items of well nested, non-empty items joined by commas and enclosed in
brackets or braces gives back the items. -/
theorem readItems_enclosed (opening close : Nat) (o c : Char) (ho : o.toNat = opening)
    (hc : c.toNat = close) (hclose : close = 125 ∨ close = 93) (xs : List String)
    (h : ∀ x ∈ xs, WellNested x ∧ x.data ≠ []) :
    readItems opening close (String.mk [o] ++ ",".intercalate xs ++ String.mk [c]).data =
      some (xs.map String.data) := by
  simp only [String.data_append, List.singleton_append, List.cons_append, List.nil_append,
    readItems, ho, if_true]
  cases xs with
  | nil =>
    show (match splitItems close (.plain 0) [] [] [c] with
      | some [[]] => some []
      | r => r) = some []
    rw [splitItems_close close c hc hclose]
    rfl
  | cons x rest =>
    rw [intercalate_data, List.append_assoc,
      splitItems_joined close c hc hclose rest x [] fun y hy => (h y hy).1]
    have hx := (h x (List.mem_cons_self _ _)).2
    simp only [List.reverse_nil, List.nil_append, List.map_cons]
    split
    · rename_i heq
      simp only [Option.some.injEq, List.cons.injEq] at heq
      exact absurd heq.1 hx
    · rfl

/-- The value of a hexadecimal digit written by the encoder. -/
theorem hexValue_hexDigit (k : Nat) (hk : k < 16) : hexValue (hexDigit k) = some k := by
  interval_cases k <;> decide

/-- A step of reading a string: an ordinary character. -/
theorem readStringBody_ordinary (c : Char) (t acc : List Char) (h1 : c.toNat ≠ 34)
    (h2 : c.toNat ≠ 92) (h3 : ¬ c.toNat < 32) :
    readStringBody (c :: t) acc = readStringBody t (c :: acc) := by
  rw [readStringBody.eq_def]
  simp only [if_neg h1, if_neg h2, if_neg h3]

/-- A step of reading a string: a backslash and a letter. -/
theorem readStringBody_letter (e x : Char) (t acc : List Char) (h1 : e.toNat ≠ 117)
    (h2 : escapeLetter e = some x) :
    readStringBody (Char.ofNat 92 :: e :: t) acc = readStringBody t (x :: acc) := by
  have ha : (Char.ofNat 92).toNat ≠ 34 := by decide
  have hb : (Char.ofNat 92).toNat = 92 := by decide
  rw [readStringBody.eq_def]
  simp only [if_neg ha, if_pos hb, if_neg h1, h2]

/-- A step of reading a string: a backslash, `u` and four hexadecimal digits. -/
theorem readStringBody_hex (a b c d : Char) (x y z w : Nat) (t acc : List Char)
    (ha : hexValue a = some x) (hb : hexValue b = some y) (hc : hexValue c = some z)
    (hd : hexValue d = some w) (hv : Nat.isValidChar (((x * 16 + y) * 16 + z) * 16 + w)) :
    readStringBody (Char.ofNat 92 :: 'u' :: a :: b :: c :: d :: t) acc =
      readStringBody t (Char.ofNat (((x * 16 + y) * 16 + z) * 16 + w) :: acc) := by
  have h1 : (Char.ofNat 92).toNat ≠ 34 := by decide
  have h2 : (Char.ofNat 92).toNat = 92 := by decide
  have h3 : 'u'.toNat = 117 := by decide
  rw [readStringBody.eq_def]
  simp only [if_neg h1, if_pos h2, if_pos h3, ha, hb, hc, hd, if_pos hv]

/-- A step of reading a string: the closing quote. -/
theorem readStringBody_quote (rest acc : List Char) :
    readStringBody (Char.ofNat 34 :: rest) acc = some (acc.reverse, rest) := by
  have hq : (Char.ofNat 34).toNat = 34 := by decide
  rw [readStringBody.eq_def]
  simp only [if_pos hq]

/-- Reading the escape of a character gives the character. -/
theorem readStringBody_escapeChar (c : Char) (t acc : List Char) :
    readStringBody (escapeChar c ++ t) acc = readStringBody t (c :: acc) := by
  have hc : Char.ofNat c.toNat = c := Char.ofNat_toNat c
  unfold escapeChar
  simp only
  split_ifs with h1 h2 h3 h4 h5 h6 h7 h8
  · apply readStringBody_letter c c t acc
    · rcases h1 with h | h <;> omega
    · simp only [escapeLetter]
      rw [if_pos (by rcases h1 with h | h <;> simp [h])]
  · rw [← hc, h2]
    exact readStringBody_letter 'b' _ t acc (by decide) rfl
  · rw [← hc, h3]
    exact readStringBody_letter 'f' _ t acc (by decide) rfl
  · rw [← hc, h4]
    exact readStringBody_letter 'n' _ t acc (by decide) rfl
  · rw [← hc, h5]
    exact readStringBody_letter 'r' _ t acc (by decide) rfl
  · rw [← hc, h6]
    exact readStringBody_letter 't' _ t acc (by decide) rfl
  · have hlt : c.toNat < 64 := by rcases h7 with h | h | h | h <;> omega
    have hval : ((0 * 16 + 0) * 16 + c.toNat / 16) * 16 + c.toNat % 16 = c.toNat := by omega
    have := readStringBody_hex '0' '0' (hexDigit (c.toNat / 16)) (hexDigit (c.toNat % 16))
      0 0 (c.toNat / 16) (c.toNat % 16) t acc (by decide) (by decide)
      (hexValue_hexDigit _ (by omega)) (hexValue_hexDigit _ (by omega))
      (by rw [hval]; exact Or.inl (by omega))
    rw [hval, hc] at this
    exact this
  · have hval : ((2 * 16 + 0) * 16 + 2) * 16 + c.toNat % 16 = c.toNat := by
      rcases h8 with h | h <;> omega
    have := readStringBody_hex '2' '0' '2' (hexDigit (c.toNat % 16))
      2 0 2 (c.toNat % 16) t acc (by decide) (by decide) (by decide)
      (hexValue_hexDigit _ (by omega))
      (by rw [hval]; exact Or.inl (by rcases h8 with h | h <;> omega))
    rw [hval, hc] at this
    exact this
  · have hq : c.toNat ≠ 34 := fun h => h1 (Or.inl h)
    have hb : c.toNat ≠ 92 := fun h => h1 (Or.inr h)
    have h32 : ¬ c.toNat < 32 := fun h => h7 (Or.inl h)
    exact readStringBody_ordinary c t acc hq hb h32

/-- Reading the escapes of a run of characters up to the closing quote gives the
characters and the text after the quote. -/
theorem readStringBody_escaped (cs : List Char) (rest : List Char) :
    ∀ acc : List Char,
      readStringBody (cs.flatMap escapeChar ++ Char.ofNat 34 :: rest) acc =
        some (acc.reverse ++ cs, rest) := by
  induction cs with
  | nil =>
    intro acc
    rw [List.flatMap_nil, List.nil_append, readStringBody_quote, List.append_nil]
  | cons c t ih =>
    intro acc
    rw [List.flatMap_cons, List.append_assoc, readStringBody_escapeChar, ih]
    simp

/-- Reading an encoded string gives the string. -/
theorem readString_encodeString (s : String) : readString (encodeString s) = some s := by
  have hq : (Char.ofNat 34).toNat = 34 := by decide
  simp only [readString, encodeString_data, if_pos hq, readStringBody_escaped s.data [] [],
    List.reverse_nil, List.nil_append]

/-- Reading the text of a member gives its key and the text of its value. -/
theorem readMember_member (k v : String) :
    readMember (encodeString k ++ ":" ++ v).data = some (k, v) := by
  have hq : (Char.ofNat 34).toNat = 34 := by decide
  have hcolon : ':'.toNat = 58 := by decide
  simp only [String.data_append, encodeString_data, List.cons_append, List.append_assoc,
    List.singleton_append, readMember, if_pos hq]
  rw [readStringBody_escaped]
  show (if ':'.toNat = 58 then some (String.mk ([].reverse ++ k.data), String.mk v.data)
    else none) = _
  rw [if_pos hcolon]
  rfl

/-- Reading each of the texts of a list of items that can all be read. -/
theorem readEach_map {α β : Type} (f : List Char → Option α) (g : β → List Char)
    (r : β → α) (xs : List β) (h : ∀ x ∈ xs, f (g x) = some (r x)) :
    readEach f (xs.map g) = some (xs.map r) := by
  induction xs with
  | nil => rfl
  | cons x rest ih =>
    simp only [List.map_cons, readEach, h x (List.mem_cons_self _ _),
      ih fun y hy => h y (List.mem_cons_of_mem _ hy)]

/-- The text of an encoded string is not empty. -/
theorem encodeString_data_ne (s : String) : (encodeString s).data ≠ [] := by
  rw [encodeString_data]
  exact List.cons_ne_nil _ _

/-- Reading an object whose values are well nested gives back its members: the keys and
the texts of the values, in order. -/
theorem readObject_renderObject (fs : Fields) (h : ∀ kv ∈ fs, WellNested kv.2) :
    readObject (renderObject fs) = some fs := by
  have hitems := readItems_enclosed 123 125 (Char.ofNat 123) (Char.ofNat 125) rfl rfl
    (Or.inl rfl) (fs.map fun kv => encodeString kv.1 ++ ":" ++ kv.2) (by
      intro x hx
      obtain ⟨kv, hkv, rfl⟩ := List.mem_map.mp hx
      refine ⟨wellNested_member kv.1 kv.2 (h kv hkv), ?_⟩
      simp only [String.data_append]
      intro hnil
      exact encodeString_data_ne kv.1 (List.append_eq_nil.mp (List.append_eq_nil.mp hnil).1).1)
  unfold readObject
  have hren : (renderObject fs).data = (String.mk [Char.ofNat 123] ++
      ",".intercalate (fs.map fun kv => encodeString kv.1 ++ ":" ++ kv.2) ++
      String.mk [Char.ofNat 125]).data := rfl
  rw [hren, hitems, List.map_map]
  have := readEach_map readMember
    (String.data ∘ fun kv : String × String => encodeString kv.1 ++ ":" ++ kv.2)
    id fs (fun kv _ => readMember_member kv.1 kv.2)
  show readEach readMember _ = _
  rw [this, List.map_id]

/-- Reading an encoded list of strings gives back the strings. -/
theorem readStrings_encodeStrings (xs : List String) :
    readStrings (encodeStrings xs) = some xs := by
  have hitems := readItems_enclosed 91 93 (Char.ofNat 91) (Char.ofNat 93) rfl rfl
    (Or.inr rfl) (xs.map encodeString) (by
      intro x hx
      obtain ⟨y, _, rfl⟩ := List.mem_map.mp hx
      exact ⟨wellNested_encodeString y, encodeString_data_ne y⟩)
  unfold readStrings
  have hren : (encodeStrings xs).data = (String.mk [Char.ofNat 91] ++
      ",".intercalate (xs.map encodeString) ++ String.mk [Char.ofNat 93]).data := rfl
  rw [hren, hitems, List.map_map]
  have := readEach_map (fun item => readString (String.mk item))
    (String.data ∘ encodeString) id xs (fun s _ => readString_encodeString s)
  show readEach _ _ = _
  rw [this, List.map_id]

/-- The value of a `string` field is well nested. -/
theorem wellNested_stringField (name v : String) :
    ∀ kv ∈ stringField name v, WellNested kv.2 := by
  intro kv hkv
  unfold stringField at hkv
  split_ifs at hkv
  · cases hkv
  · rw [List.mem_singleton.mp hkv]
    exact wellNested_encodeString v

/-- The value of a `bool` field is well nested. -/
theorem wellNested_boolField (name : String) (v : Bool) :
    ∀ kv ∈ boolField name v, WellNested kv.2 := by
  intro kv hkv
  unfold boolField at hkv
  split_ifs at hkv
  · rw [List.mem_singleton.mp hkv]
    exact wellNested_true
  · cases hkv

/-- The value of a `[]string` field is well nested. -/
theorem wellNested_stringsField (name : String) (v : List String) :
    ∀ kv ∈ stringsField name v, WellNested kv.2 := by
  intro kv hkv
  unfold stringsField at hkv
  split_ifs at hkv
  · cases hkv
  · rw [List.mem_singleton.mp hkv]
    exact wellNested_encodeStrings v

/-- The value of a `*uint` field is well nested. -/
theorem wellNested_uintPtrField (name : String) (v : Option Nat) :
    ∀ kv ∈ uintPtrField name v, WellNested kv.2 := by
  intro kv hkv
  cases v with
  | none => cases hkv
  | some n =>
    rw [List.mem_singleton.mp hkv]
    exact wellNested_decimal n

/-- The value of a `map[string]string` field is well nested. -/
theorem wellNested_stringMapField (name : String) (v : List (String × String)) :
    ∀ kv ∈ stringMapField name v, WellNested kv.2 := by
  intro kv hkv
  unfold stringMapField at hkv
  split_ifs at hkv
  · cases hkv
  · rw [List.mem_singleton.mp hkv]
    apply wellNested_renderObject
    intro x hx
    obtain ⟨y, _, rfl⟩ := List.mem_map.mp hx
    exact wellNested_encodeString y.2

/-- The values of the members of a `Notification` are well nested. -/
theorem wellNested_notificationFields (n : Notification) :
    ∀ kv ∈ notificationFields n, WellNested kv.2 := by
  intro kv hkv
  simp only [notificationFields, List.mem_append] at hkv
  rcases hkv with
    (((((((((((((h | h) | h) | h) | h) | h) | h) | h) | h) | h) | h) | h) | h) | h)
  · exact wellNested_stringField _ _ kv h
  · exact wellNested_stringField _ _ kv h
  · exact wellNested_stringField _ _ kv h
  · exact wellNested_stringField _ _ kv h
  · exact wellNested_stringField _ _ kv h
  · exact wellNested_stringsField _ _ kv h
  · exact wellNested_stringField _ _ kv h
  · exact wellNested_stringsField _ _ kv h
  · exact wellNested_stringField _ _ kv h
  · exact wellNested_stringField _ _ kv h
  · exact wellNested_stringField _ _ kv h
  · exact wellNested_stringField _ _ kv h
  · exact wellNested_stringField _ _ kv h
  · exact wellNested_stringField _ _ kv h

/-- The value of a `*Notification` field is well nested. -/
theorem wellNested_notificationPtrField (name : String) (v : Option Notification) :
    ∀ kv ∈ notificationPtrField name v, WellNested kv.2 := by
  intro kv hkv
  cases v with
  | none => cases hkv
  | some n =>
    rw [List.mem_singleton.mp hkv]
    exact wellNested_renderObject _ (wellNested_notificationFields n)

/-- The values of the encoded entries of a `map[string]interface{}` are well nested. -/
theorem wellNested_encodeIfaceEntries (entries : List (String × Iface)) :
    ∀ fs : Fields, encodeIfaceEntries entries = .ok fs → ∀ kv ∈ fs, WellNested kv.2 := by
  induction entries with
  | nil =>
    intro fs h kv hkv
    simp only [encodeIfaceEntries, Except.ok.injEq] at h
    rw [← h] at hkv
    cases hkv
  | cons e rest ih =>
    intro fs h kv hkv
    simp only [encodeIfaceEntries] at h
    cases henc : e.2.encoded with
    | error err =>
      rw [henc] at h
      cases h
    | ok text =>
      rw [henc] at h
      cases hrest : encodeIfaceEntries rest with
      | error err =>
        rw [hrest] at h
        cases h
      | ok fs1 =>
        rw [hrest] at h
        simp only [Except.ok.injEq] at h
        rw [← h] at hkv
        rcases List.mem_cons.mp hkv with rfl | hkv
        · exact e.2.wellNested text henc
        · exact ih fs1 hrest kv hkv

/-- The value of a `map[string]interface{}` field is well nested. -/
theorem wellNested_ifaceMapField (name : String) (v : List (String × Iface)) (fs : Fields)
    (h : ifaceMapField name v = .ok fs) : ∀ kv ∈ fs, WellNested kv.2 := by
  intro kv hkv
  unfold ifaceMapField at h
  split_ifs at h
  · simp only [Except.ok.injEq] at h
    rw [← h] at hkv
    cases hkv
  · cases henc : encodeIfaceEntries (sortedEntries v) with
    | error err =>
      rw [henc] at h
      cases h
    | ok entries =>
      rw [henc] at h
      simp only [Except.ok.injEq] at h
      rw [← h] at hkv
      rw [List.mem_singleton.mp hkv]
      exact wellNested_renderObject _ (wellNested_encodeIfaceEntries _ entries henc)

/-- The values of the members of an encoded message are well nested. -/
theorem wellNested_messageFields (msg : Message) (fs : Fields)
    (h : messageFields msg = .ok fs) : ∀ kv ∈ fs, WellNested kv.2 := by
  unfold messageFields at h
  cases hapns : ifaceMapField "apns" msg.Apns with
  | error e =>
    rw [hapns] at h
    cases h
  | ok apns =>
    cases hweb : ifaceMapField "webpush" msg.Webpush with
    | error e =>
      rw [hapns, hweb] at h
      cases h
    | ok webpush =>
      rw [hapns, hweb] at h
      simp only [Except.ok.injEq] at h
      intro kv hkv
      rw [← h] at hkv
      simp only [List.mem_append] at hkv
      rcases hkv with
        ((((((((((((((h | h) | h) | h) | h) | h) | h) | h) | h) | h) | h) | h) | h) | h) | h)
      · exact wellNested_stringField _ _ kv h
      · exact wellNested_stringsField _ _ kv h
      · exact wellNested_stringField _ _ kv h
      · exact wellNested_stringField _ _ kv h
      · exact wellNested_stringField _ _ kv h
      · exact wellNested_boolField _ _ kv h
      · exact wellNested_boolField _ _ kv h
      · exact wellNested_boolField _ _ kv h
      · exact wellNested_uintPtrField _ _ kv h
      · exact wellNested_stringField _ _ kv h
      · exact wellNested_boolField _ _ kv h
      · exact wellNested_stringMapField _ _ kv h
      · exact wellNested_notificationPtrField _ _ kv h
      · exact wellNested_ifaceMapField _ _ apns hapns kv h
      · exact wellNested_ifaceMapField _ _ webpush hweb kv h

/-- Reading an encoded message gives back its members. -/
theorem readObject_Marshal (msg : Message) (body : String)
    (h : Marshal (some msg) = .ok body) :
    ∃ fs, messageFields msg = .ok fs ∧ readObject body = some fs := by
  simp only [Marshal] at h
  cases hfs : messageFields msg with
  | error e =>
    rw [hfs] at h
    cases h
  | ok fs =>
    rw [hfs] at h
    simp only [Except.ok.injEq] at h
    rw [← h]
    exact ⟨fs, rfl, readObject_renderObject fs (wellNested_messageFields msg fs hfs)⟩

/-- The member of a `string` field. -/
theorem mem_stringField (name val k v : String) (h : (k, v) ∈ stringField name val) :
    k = name ∧ v = encodeString val := by
  unfold stringField at h
  split_ifs at h
  · cases h
  · simpa using h

/-- The member of a `bool` field. -/
theorem mem_boolField (name : String) (b : Bool) (k v : String) (h : (k, v) ∈ boolField name b) :
    k = name ∧ v = "true" := by
  unfold boolField at h
  split_ifs at h
  · simpa using h
  · cases h

/-- The member of a `[]string` field. -/
theorem mem_stringsField (name : String) (val : List String) (k v : String)
    (h : (k, v) ∈ stringsField name val) : k = name ∧ v = encodeStrings val := by
  unfold stringsField at h
  split_ifs at h
  · cases h
  · simpa using h

/-- The member of a `*uint` field. -/
theorem mem_uintPtrField (name : String) (val : Option Nat) (k v : String)
    (h : (k, v) ∈ uintPtrField name val) : k = name ∧ ∃ n, val = some n ∧ v = toString n := by
  cases val with
  | none => cases h
  | some n =>
    have := List.mem_singleton.mp h
    simp only [Prod.mk.injEq] at this
    exact ⟨this.1, n, rfl, this.2⟩

/-- The key of the member of a `map[string]string` field. -/
theorem mem_stringMapField (name : String) (val : List (String × String)) (k v : String)
    (h : (k, v) ∈ stringMapField name val) : k = name := by
  unfold stringMapField at h
  split_ifs at h
  · cases h
  · have := List.mem_singleton.mp h
    simp only [Prod.mk.injEq] at this
    exact this.1

/-- The key of the member of a `*Notification` field. -/
theorem mem_notificationPtrField (name : String) (val : Option Notification) (k v : String)
    (h : (k, v) ∈ notificationPtrField name val) : k = name := by
  cases val with
  | none => cases h
  | some n =>
    have := List.mem_singleton.mp h
    simp only [Prod.mk.injEq] at this
    exact this.1

/-- The key of the member of a `map[string]interface{}` field. -/
theorem mem_ifaceMapField (name : String) (val : List (String × Iface)) (fs : Fields)
    (hfs : ifaceMapField name val = .ok fs) (k v : String) (h : (k, v) ∈ fs) : k = name := by
  have hkeys := ifaceMapField_keys name val fs hfs
  have hk : k ∈ fs.map Prod.fst := List.mem_map.mpr ⟨(k, v), h, rfl⟩
  rw [hkeys] at hk
  split_ifs at hk
  · exact List.mem_singleton.mp hk
  · cases hk

/-- Where a member of an encoded message comes from: the field of its key. -/
theorem mem_messageFields (msg : Message) (fs : Fields) (hfs : messageFields msg = .ok fs)
    (k v : String) (h : (k, v) ∈ fs) :
    (k = "to" ∧ v = encodeString msg.To) ∨
    (k = "registration_ids" ∧ v = encodeStrings msg.RegistrationIds) ∨
    (k = "condition" ∧ v = encodeString msg.Condition) ∨
    (k = "collapse_key" ∧ v = encodeString msg.CollapseKey) ∨
    (k = "priority" ∧ v = encodeString msg.Priority) ∨
    (k = "content_available" ∧ v = "true") ∨
    (k = "mutable_content" ∧ v = "true") ∨
    (k = "delay_while_idle" ∧ v = "true") ∨
    (k = "time_to_live" ∧ ∃ n, msg.TimeToLive = some n ∧ v = toString n) ∨
    (k = "restricted_package_name" ∧ v = encodeString msg.RestrictedPackageName) ∨
    (k = "dry_run" ∧ v = "true") ∨
    k = "data" ∨ k = "notification" ∨ k = "apns" ∨ k = "webpush" := by
  unfold messageFields at hfs
  cases hapns : ifaceMapField "apns" msg.Apns with
  | error e =>
    rw [hapns] at hfs
    cases hfs
  | ok apns =>
    cases hweb : ifaceMapField "webpush" msg.Webpush with
    | error e =>
      rw [hapns, hweb] at hfs
      cases hfs
    | ok webpush =>
      rw [hapns, hweb] at hfs
      simp only [Except.ok.injEq] at hfs
      rw [← hfs] at h
      simp only [List.mem_append] at h
      rcases h with
        ((((((((((((((h | h) | h) | h) | h) | h) | h) | h) | h) | h) | h) | h) | h) | h) | h)
      · exact Or.inl (mem_stringField _ _ _ _ h)
      · exact Or.inr (Or.inl (mem_stringsField _ _ _ _ h))
      · exact Or.inr (Or.inr (Or.inl (mem_stringField _ _ _ _ h)))
      · exact Or.inr (Or.inr (Or.inr (Or.inl (mem_stringField _ _ _ _ h))))
      · exact Or.inr (Or.inr (Or.inr (Or.inr (Or.inl (mem_stringField _ _ _ _ h)))))
      · exact Or.inr (Or.inr (Or.inr (Or.inr (Or.inr (Or.inl (mem_boolField _ _ _ _ h))))))
      · exact Or.inr (Or.inr (Or.inr (Or.inr (Or.inr (Or.inr
          (Or.inl (mem_boolField _ _ _ _ h)))))))
      · exact Or.inr (Or.inr (Or.inr (Or.inr (Or.inr (Or.inr (Or.inr
          (Or.inl (mem_boolField _ _ _ _ h))))))))
      · exact Or.inr (Or.inr (Or.inr (Or.inr (Or.inr (Or.inr (Or.inr (Or.inr
          (Or.inl (mem_uintPtrField _ _ _ _ h)))))))))
      · exact Or.inr (Or.inr (Or.inr (Or.inr (Or.inr (Or.inr (Or.inr (Or.inr (Or.inr
          (Or.inl (mem_stringField _ _ _ _ h))))))))))
      · exact Or.inr (Or.inr (Or.inr (Or.inr (Or.inr (Or.inr (Or.inr (Or.inr (Or.inr (Or.inr
          (Or.inl (mem_boolField _ _ _ _ h)))))))))))
      · exact Or.inr (Or.inr (Or.inr (Or.inr (Or.inr (Or.inr (Or.inr (Or.inr (Or.inr (Or.inr
          (Or.inr (Or.inl (mem_stringMapField _ _ _ _ h))))))))))))
      · exact Or.inr (Or.inr (Or.inr (Or.inr (Or.inr (Or.inr (Or.inr (Or.inr (Or.inr (Or.inr
          (Or.inr (Or.inr (Or.inl (mem_notificationPtrField _ _ _ _ h)))))))))))))
      · exact Or.inr (Or.inr (Or.inr (Or.inr (Or.inr (Or.inr (Or.inr (Or.inr (Or.inr (Or.inr
          (Or.inr (Or.inr (Or.inr (Or.inl (mem_ifaceMapField _ _ _ hapns _ _ h))))))))))))))
      · exact Or.inr (Or.inr (Or.inr (Or.inr (Or.inr (Or.inr (Or.inr (Or.inr (Or.inr (Or.inr
          (Or.inr (Or.inr (Or.inr (Or.inr (mem_ifaceMapField _ _ _ hweb _ _ h))))))))))))))

/-- C10. The body of every request `Send` issues is the encoded message, and an encoded
message, read back as JSON text, is an object whose keys are exactly the wire names of
the non-empty fields, in the order `to`, `registration_ids`, ..., `webpush`; the value
under a key is that of the field (read back for the strings and the list of strings,
`true` for a flag, the number in decimal for the time-to-live). So a message whose
optional fields all have their defaults is encoded with its non-empty target field only,
and the message with `to="T"`, `dryRun=true` and the notification with title `A` and
body `B` is encoded as the object with the members `"to":"T"`, `"dry_run":true` and
`"notification"`, the latter an object with the members `"title":"A"` and `"body":"B"`,
and nothing else. -/
theorem Send_serializes_non_empty_fields :
    (∀ (h : Http) (c : Client) (msg : Message) (req : Request),
      req ∈ (Send h c (some msg)).2 → Marshal (some msg) = .ok req.Body) ∧
    (∀ (msg : Message) (body : String), Marshal (some msg) = .ok body →
      ∃ members, readObject body = some members ∧
        members.map Prod.fst = ((wireNames msg).filter fun x => x.2).map Prod.fst ∧
        (∀ v, ("to", v) ∈ members → readString v = some msg.To) ∧
        (∀ v, ("registration_ids", v) ∈ members →
          readStrings v = some msg.RegistrationIds) ∧
        (∀ v, ("condition", v) ∈ members → readString v = some msg.Condition) ∧
        (∀ v, ("collapse_key", v) ∈ members → readString v = some msg.CollapseKey) ∧
        (∀ v, ("priority", v) ∈ members → readString v = some msg.Priority) ∧
        (∀ v, ("restricted_package_name", v) ∈ members →
          readString v = some msg.RestrictedPackageName) ∧
        (∀ k v, (k, v) ∈ members →
          k = "content_available" ∨ k = "mutable_content" ∨ k = "delay_while_idle" ∨
            k = "dry_run" → v = "true") ∧
        (∀ v, ("time_to_live", v) ∈ members →
          ∃ n, msg.TimeToLive = some n ∧ v = toString n)) ∧
    (∀ t : String, t ≠ "" →
      ∃ body v, Marshal (some { To := t }) = .ok body ∧
        readObject body = some [("to", v)] ∧ readString v = some t) ∧
    (∀ ids : List String, ids ≠ [] →
      ∃ body v, Marshal (some { RegistrationIds := ids }) = .ok body ∧
        readObject body = some [("registration_ids", v)] ∧ readStrings v = some ids) ∧
    (∀ cnd : String, cnd ≠ "" →
      ∃ body v, Marshal (some { Condition := cnd }) = .ok body ∧
        readObject body = some [("condition", v)] ∧ readString v = some cnd) ∧
    Marshal (some dryRunToT) =
      .ok "\x7b\"to\":\"T\",\"dry_run\":true,\"notification\":\x7b\"title\":\"A\",\"body\":\"B\"\x7d\x7d" ∧
    (∀ (h : Http) (c : Client), h.NewRequestErr "POST" API_SEND_MESSAGE = none →
      (Send h c (some dryRunToT)).2.map Request.Body =
        ["\x7b\"to\":\"T\",\"dry_run\":true,\"notification\":\x7b\"title\":\"A\",\"body\":\"B\"\x7d\x7d"]) := by
  refine ⟨?_, ?_, ?_, ?_, ?_, rfl, ?_⟩
  · intro h c msg req hreq
    obtain ⟨fs, hfs, hbody⟩ := Send_request_body h c msg req hreq
    simp only [Marshal, hfs, hbody]
  · intro msg body hbody
    obtain ⟨fs, hfs, hread⟩ := readObject_Marshal msg body hbody
    refine ⟨fs, hread, messageFields_keys msg fs hfs, ?_, ?_, ?_, ?_, ?_, ?_, ?_, ?_⟩
    · intro v hv
      have := mem_messageFields msg fs hfs _ v hv
      simp only [String.reduceEq, false_and, false_or, true_and, or_false] at this
      rw [this]
      exact readString_encodeString _
    · intro v hv
      have := mem_messageFields msg fs hfs _ v hv
      simp only [String.reduceEq, false_and, false_or, true_and, or_false] at this
      rw [this]
      exact readStrings_encodeStrings _
    · intro v hv
      have := mem_messageFields msg fs hfs _ v hv
      simp only [String.reduceEq, false_and, false_or, true_and, or_false] at this
      rw [this]
      exact readString_encodeString _
    · intro v hv
      have := mem_messageFields msg fs hfs _ v hv
      simp only [String.reduceEq, false_and, false_or, true_and, or_false] at this
      rw [this]
      exact readString_encodeString _
    · intro v hv
      have := mem_messageFields msg fs hfs _ v hv
      simp only [String.reduceEq, false_and, false_or, true_and, or_false] at this
      rw [this]
      exact readString_encodeString _
    · intro v hv
      have := mem_messageFields msg fs hfs _ v hv
      simp only [String.reduceEq, false_and, false_or, true_and, or_false] at this
      rw [this]
      exact readString_encodeString _
    · intro k v hkv hk
      have := mem_messageFields msg fs hfs k v hkv
      rcases hk with rfl | rfl | rfl | rfl <;>
        simp only [String.reduceEq, false_and, false_or, true_and, or_false] at this <;>
        exact this
    · intro v hv
      have := mem_messageFields msg fs hfs _ v hv
      simp only [String.reduceEq, false_and, false_or, true_and, or_false] at this
      exact this
  · intro t ht
    have hfs : messageFields { To := t } = .ok [("to", encodeString t)] := by
      simp [messageFields, ifaceMapField, boolField, uintPtrField, stringMapField,
        notificationPtrField, stringField, stringsField, ht]
    refine ⟨renderObject [("to", encodeString t)], encodeString t, ?_, ?_,
      readString_encodeString t⟩
    · simp only [Marshal, hfs]
    · exact readObject_renderObject _ (wellNested_messageFields _ _ hfs)
  · intro ids hids
    have hfs : messageFields { RegistrationIds := ids } =
        .ok [("registration_ids", encodeStrings ids)] := by
      simp [messageFields, ifaceMapField, boolField, uintPtrField, stringMapField,
        notificationPtrField, stringField, stringsField, hids]
    refine ⟨renderObject [("registration_ids", encodeStrings ids)], encodeStrings ids, ?_, ?_,
      readStrings_encodeStrings ids⟩
    · simp only [Marshal, hfs]
    · exact readObject_renderObject _ (wellNested_messageFields _ _ hfs)
  · intro cnd hcnd
    have hfs : messageFields { Condition := cnd } = .ok [("condition", encodeString cnd)] := by
      simp [messageFields, ifaceMapField, boolField, uintPtrField, stringMapField,
        notificationPtrField, stringField, stringsField, hcnd]
    refine ⟨renderObject [("condition", encodeString cnd)], encodeString cnd, ?_, ?_,
      readString_encodeString cnd⟩
    · simp only [Marshal, hfs]
    · exact readObject_renderObject _ (wellNested_messageFields _ _ hfs)
  · intro h c hnew
    have hval : Validate (some dryRunToT) = none := by decide
    have hmar : Marshal (some dryRunToT) =
        .ok "\x7b\"to\":\"T\",\"dry_run\":true,\"notification\":\x7b\"title\":\"A\",\"body\":\"B\"\x7d\x7d" := rfl
    simp only [Send, hval, hmar, request, requestWithContext, hnew]
    generalize h.Do _ = r
    cases r with
    | error e => rfl
    | ok resp =>
      simp only
      split
      · rfl
      · split <;> rfl

/-- C10 at the message whose only non-default field is `to="T"`. -/
theorem Send_serializes_non_empty_fields_witness :
    ∃ body v, Marshal (some { To := "T" }) = .ok body ∧
      readObject body = some [("to", v)] ∧ readString v = some "T" :=
  Send_serializes_non_empty_fields.2.2.1 "T" (by decide)
end fcm
